import Mathlib

/-
  Verification development for the streaming event reconciliation and
  session-state-synchronization layer of the dataagent-ag-ui backend.

  The definitions below are a shallow embedding of:
    - src/api/middleware/orchestrators.py  (DeduplicatingOrchestrator)
    - src/api/middleware/responses_api.py  (ResponsesApiThreadMiddleware)
  Python dicts are modelled as insertion-ordered association lists, JSON
  values as the inductive `Value`, and the AG-UI events as the inductive
  `Event`.  The body of `DeduplicatingOrchestrator.run`'s event loop is the
  function `step`; one turn's processing is `runEvents`.
-/

namespace DataAgent

/-- JSON-like values, the payloads of events and of state snapshots. -/
inductive Value where
  | null
  | boolean (b : Bool)
  | num (n : Int)
  | str (s : String)
  | arr (xs : List Value)
  | obj (kvs : List (String × Value))

/-- Python dicts with string keys are modelled as insertion-ordered
association lists. -/
abbrev Dict := List (String × Value)

/-- First-occurrence lookup in an association list (Python `d[k]` / `d.get(k)`). -/
def lookupKey (k : String) : List (String × α) → Option α
  | [] => none
  | p :: rest => if p.1 = k then some p.2 else lookupKey k rest

/-- Key membership test (Python `k in d`). -/
def hasKey (k : String) (d : List (String × α)) : Bool :=
  (lookupKey k d).isSome

/-- Python `d[k] = v`: replace the value at an existing key in place
(preserving insertion order), or append a fresh binding at the end. -/
def setKey (k : String) (v : α) : List (String × α) → List (String × α)
  | [] => [(k, v)]
  | p :: rest => if p.1 = k then (k, v) :: rest else p :: setKey k v rest

/-- Python `dict(a); a.update(b)`, i.e. the merge `\x7b**a, **b\x7d`: every
binding of `b` is written into `a` in order. -/
def dictMerge (a : List (String × α)) : List (String × α) → List (String × α)
  | [] => a
  | p :: rest => dictMerge (setKey p.1 p.2 a) rest

/-- Value of the last binding of `k` (relevant only when keys repeat). -/
def lastVal (k : String) : List (String × α) → Option α
  | [] => none
  | p :: rest =>
      match lastVal k rest with
      | some v => some v
      | none => if p.1 = k then some p.2 else none

/-- Remove the first occurrence of an element (Python `set.discard` /
`dict.pop` on our list model). -/
def removeFirst (k : String) : List String → List String
  | [] => []
  | x :: rest => if x = k then rest else x :: removeFirst k rest

/-- The emptiness test of orchestrators.py line 475:
`value is not None and value != [] and value != \x7b\x7d`, negated. -/
def Value.isEmptyVal : Value → Bool
  | .null => true
  | .arr [] => true
  | .obj [] => true
  | _ => false

/-- Python truthiness of a JSON value. -/
def Value.truthy : Value → Bool
  | .null => false
  | .boolean b => b
  | .num n => n ≠ 0
  | .str s => s ≠ ""
  | .arr xs => ¬ xs.isEmpty
  | .obj kvs => ¬ kvs.isEmpty

/-- The AG-UI protocol events flowing through the orchestrator
(ag_ui.core event classes; `textStart` is TextMessageStartEvent etc.). -/
inductive Event where
  | runStarted (threadId runId : String)
  | runFinished (threadId runId : String)
  | textStart (messageId : String)
  | textContent (messageId : String) (delta : String)
  | textEnd (messageId : String)
  | toolCallStart (toolCallId toolCallName : String)
  | toolCallArgs (toolCallId : String) (delta : String)
  | toolCallEnd (toolCallId : String)
  | toolCallResult (toolCallId : String) (content : Value)
  | stateSnapshot (snapshot : Dict)

/-- FRONTEND_ONLY_TOOLS of orchestrators.py lines 29-40. -/
def FRONTEND_ONLY_TOOLS : List String :=
  ["filter_dashboard", "setThemeColor", "display_flight_list",
   "display_flight_detail", "display_historical_chart",
   "fetch_flight_details", "reload_all_flights"]

/-- COMMAND_TOOLS of orchestrators.py line 413. -/
def COMMAND_TOOLS : List String := ["fetch_flights", "clear_filter"]

/-- FRONTEND_ONLY_STATE_FIELDS of orchestrators.py lines 46-48. -/
def FRONTEND_ONLY_STATE_FIELDS : List String := ["selectedRoute"]

/-- The per-turn mutable state of the `DeduplicatingOrchestrator.run` event
loop (its local variables, orchestrators.py lines 404-455).  The argument
buffer `_tool_args_buffer` lives on `self` in the source but is read only
through `.get(id, "")`, so a per-turn map is observationally equivalent for
ids of this turn. -/
structure RunState where
  seen : List String
  completed : List String
  toolCallNames : List (String × String)
  commandToolCalled : Bool
  extractedState : Dict
  lastInnerState : Dict
  frontendState : Dict
  argsBuffer : List (String × String)
  pendingStartIds : List String
  activeTextIds : List String

/-- Initial loop state; `frontend` is the `frontend_state` dict captured
from the incoming request before the loop starts. -/
def initState (frontend : Dict) : RunState :=
  { seen := [], completed := [], toolCallNames := [], commandToolCalled := false,
    extractedState := [], lastInnerState := [], frontendState := frontend,
    argsBuffer := [], pendingStartIds := [], activeTextIds := [] }

/-- Accumulation of an inner StateSnapshotEvent into `last_inner_state`
(orchestrators.py lines 474-479): non-empty values always overwrite; empty
values are written only for keys not seen before. -/
def updateInner (inner : Dict) : Dict → Dict
  | [] => inner
  | (k, v) :: rest =>
      if ¬ v.isEmptyVal then updateInner (setKey k v inner) rest
      else if hasKey k inner then updateInner inner rest
      else updateInner (setKey k v inner) rest

/-- The three-layer state merge `\x7b**last_inner_state, **extracted_state,
**frontend_state\x7d` (orchestrators.py lines 582, 648, 715). -/
def mergeLayers (inner extracted frontend : Dict) : Dict :=
  dictMerge (dictMerge inner extracted) frontend

/-- Sentinel cleanup of a single value: `None if v == "__KEEP__" else v`
(orchestrators.py lines 628-631). -/
def cleanKeepEntry : Value → Value
  | .str s => if s = "__KEEP__" then .null else .str s
  | v => v

/-- Sentinel cleanup of all entries of a filter dict. -/
def cleanKeepList (kvs : List (String × Value)) : List (String × Value) :=
  kvs.map (fun p => (p.1, cleanKeepEntry p.2))

/-- Sentinel cleanup of the `activeFilter` value found in a tool result.
The source calls `.items()` on it, so only mapping values are reachable
there (a non-mapping value would raise); we keep other values unchanged. -/
def cleanActiveFilter : Value → Value
  | .obj kvs => .obj (cleanKeepList kvs)
  | v => v

/-- Route normalization in the filter_dashboard ToolCallEnd branch
(orchestrators.py line 559). -/
def normalizeRoute (s : String) : String :=
  ((s.toUpper).replace "-" " → ").replace " TO " " → "

/-- The `route` computation of orchestrators.py lines 557-559: take
`args.get("route")`, and if truthy normalize it (it is a string there). -/
def routeValue (args : Dict) : Value :=
  match lookupKey "route" args with
  | none => .null
  | some v =>
      match v with
      | .str s => if s = "" then .str "" else .str (normalizeRoute s)
      | w => w

/-- The `has_filter` condition of orchestrators.py line 564:
`route or (utilization_type and utilization_type != "all")`. -/
def hasFilterCond (route ut : Value) : Bool :=
  route.truthy || (ut.truthy && !(match ut with | .str s => s = "all" | _ => false))

/-- Result of `json.loads` applied to a tool result that arrived as a
string: on parse failure the string itself is kept
(orchestrators.py lines 605-609).  `parse` stands for `json.loads`,
which is external library code and is left abstract. -/
def parsedResult (parse : String → Option Value) : Value → Value
  | .str s => (parse s).getD (.str s)
  | v => v

/-- State extraction from a parsed tool-result mapping
(orchestrators.py lines 611-623): copy the configured result fields into
the tool-result state layer under their snapshot keys. -/
def extractFromResult (ex : Dict) (kvs : List (String × Value)) : Dict :=
  let ex1 := match lookupKey "flights" kvs with
             | some v => setKey "flights" v ex | none => ex
  let ex2 := match lookupKey "historical_data" kvs with
             | some v => setKey "historicalData" v ex1 | none => ex1
  match lookupKey "selectedFlight" kvs with
  | some v => setKey "selectedFlight" v ex2 | none => ex2

/-- One iteration of the `DeduplicatingOrchestrator.run` event loop
(orchestrators.py lines 457-722): given the loop state and the next inner
event, produce the new state and the events yielded downstream for it. -/
def step (parse : String → Option Value) (s : RunState) (e : Event) : RunState × List Event :=
  match e with
  | .stateSnapshot snap =>
      -- lines 465-483: buffer the inner snapshot, emit nothing
      ({ s with lastInnerState := updateInner s.lastInnerState snap }, [])
  | .toolCallStart id name =>
      -- lines 486-510
      if id ∈ s.seen then (s, [])
      else
        let s1 := { s with seen := s.seen ++ [id],
                           toolCallNames := setKey id name s.toolCallNames }
        let s2 := if name ∈ COMMAND_TOOLS then { s1 with commandToolCalled := true } else s1
        (s2, [e])
  | .toolCallArgs id delta =>
      -- lines 512-533
      if id ∉ s.seen then (s, [])
      else if id ∈ s.completed then (s, [])
      else
        let s1 :=
          if lookupKey id s.toolCallNames = some "filter_dashboard" ∧ delta ≠ "" then
            { s with argsBuffer :=
                setKey id (((lookupKey id s.argsBuffer).getD "") ++ delta) s.argsBuffer }
          else s
        (s1, [e])
  | .toolCallEnd id =>
      -- lines 535-588
      if id ∉ s.seen then (s, [])
      else if id ∈ s.completed then (s, [])
      else
        let s1 := { s with completed := s.completed ++ [id] }
        if lookupKey id s1.toolCallNames = some "filter_dashboard" then
          let argsStr := (lookupKey id s1.argsBuffer).getD ""
          if argsStr ≠ "" then
            match parse argsStr with
            | some (.obj args) =>
                -- lines 553-585 (json.loads succeeded and gave a mapping)
                let route := routeValue args
                let ut := (lookupKey "utilizationType" args).getD .null
                let ex :=
                  if hasFilterCond route ut then
                    setKey "selectedRoute" route
                      (setKey "activeFilter"
                        (.obj [("route", route), ("utilizationType", ut)]) s1.extractedState)
                  else
                    setKey "selectedRoute" .null
                      (setKey "activeFilter" .null s1.extractedState)
                let s2 := { s1 with extractedState := ex }
                let merged := mergeLayers s2.lastInnerState s2.extractedState s2.frontendState
                (s2, [e, .stateSnapshot merged])
            | _ =>
                -- json.loads raised: fall through to the default yield
                (s1, [e])
          else (s1, [e])
        else (s1, [e])
  | .toolCallResult id content =>
      -- lines 590-651
      if id ∉ s.seen then (s, [])
      else
        match parsedResult parse content with
        | .obj kvs =>
            let ex3 := extractFromResult s.extractedState kvs
            match lookupKey "activeFilter" kvs with
            | some raw =>
                -- lines 624-651: clean the sentinel, suppress text from now
                -- on, and emit the result then an early merged snapshot
                let ex4 := setKey "activeFilter" (cleanActiveFilter raw) ex3
                let s1 := { s with extractedState := ex4, commandToolCalled := true }
                let merged := mergeLayers s1.lastInnerState s1.extractedState s1.frontendState
                (s1, [e, .stateSnapshot merged])
            | none => ({ s with extractedState := ex3 }, [e])
        | _ => (s, [e])
  | .textStart m =>
      -- lines 654-666
      if s.commandToolCalled then (s, [])
      else if m ∈ s.pendingStartIds ∨ m ∈ s.activeTextIds then (s, [])
      else ({ s with pendingStartIds := s.pendingStartIds ++ [m] }, [])
  | .textContent m _d =>
      --  lines 668-683
      if s.commandToolCalled then (s, [])
      else if m ∈ s.pendingStartIds then
        ({ s with pendingStartIds := removeFirst m s.pendingStartIds,
                  activeTextIds := s.activeTextIds ++ [m] },
         [.textStart m, e])
      else if m ∉ s.activeTextIds then (s, [])
      else (s, [e])
  | .textEnd m =>
      -- lines 685-696
      if m ∈ s.pendingStartIds then
        ({ s with pendingStartIds := removeFirst m s.pendingStartIds }, [])
      else if m ∉ s.activeTextIds then (s, [])
      else ({ s with activeTextIds := removeFirst m s.activeTextIds }, [e])
  | .runFinished _ _ =>
      -- lines 698-722: force-close active messages, drop phantoms, emit the
      -- final merged snapshot, then the RunFinished event itself
      let closes := s.activeTextIds.map Event.textEnd
      let merged := mergeLayers s.lastInnerState s.extractedState s.frontendState
      ({ s with activeTextIds := [], pendingStartIds := [] },
       closes ++ [.stateSnapshot merged, e])
  | .runStarted _ _ => (s, [e])

/-- Process a list of inner events through the loop, returning the final
state and the concatenated downstream output. -/
def runEvents (parse : String → Option Value) (s : RunState) : List Event → RunState × List Event
  | [] => (s, [])
  | e :: rest =>
      let p1 := step parse s e
      let p2 := runEvents parse p1.1 rest
      (p2.1, p1.2 ++ p2.2)

/-- Message roles (agent_framework Role; the source compares the lowered
string form, covering exactly these four cases plus a keep-by-default
fallback that `system` represents here). -/
inductive Role where
  | user
  | assistant
  | tool
  | system
deriving DecidableEq

/-- Typed content items of a chat message (agent_framework TextContent,
FunctionCallContent, FunctionResultContent).  `functionCall` and
`functionResult` carry a `call_id` attribute; `text` does not. -/
inductive MsgContent where
  | text (s : String)
  | functionCall (callId name : String)
  | functionResult (callId : String)
deriving DecidableEq

/-- A chat message of the incoming history (`contents` is the AG-UI SDK's
plural contents list). -/
structure ChatMessage where
  role : Role
  contents : List MsgContent
deriving DecidableEq

/-- Check of orchestrators.py lines 263-273: the message has a
FunctionCallContent or FunctionResultContent item (the extra
`hasattr(c, 'call_id')` probe matches no further content kinds here). -/
def hasToolRelated (m : ChatMessage) : Bool :=
  m.contents.any fun c =>
    match c with
    | .functionCall _ _ => true
    | .functionResult _ => true
    | .text _ => false

/-- The fresh-start history filter
`DeduplicatingOrchestrator._filter_messages_for_fresh_start`
(orchestrators.py lines 230-291): keep user messages, drop tool messages,
drop assistant messages carrying tool calls or results, keep everything
else (system etc.). -/
def filterFreshStart : List ChatMessage → List ChatMessage
  | [] => []
  | m :: rest =>
      match m.role with
      | .user => m :: filterFreshStart rest
      | .tool => filterFreshStart rest
      | .assistant =>
          if hasToolRelated m then filterFreshStart rest
          else m :: filterFreshStart rest
      | .system => m :: filterFreshStart rest

/-- Call ids of frontend-only tool calls inside one assistant message
(first pass of `_filter_frontend_tool_calls`, orchestrators.py
lines 100-114; a falsy empty call id is not collected). -/
def msgFrontendCallIds (m : ChatMessage) : List String :=
  m.contents.foldl
    (fun acc c =>
      match c with
      | .functionCall cid name =>
          if name ∈ FRONTEND_ONLY_TOOLS ∧ cid ≠ "" then acc ++ [cid] else acc
      | _ => acc)
    []

/-- First pass of `_filter_frontend_tool_calls`: collect frontend tool call
ids from all assistant messages. -/
def collectFrontendIds (msgs : List ChatMessage) : List String :=
  msgs.foldl
    (fun acc m => if m.role = .assistant then acc ++ msgFrontendCallIds m else acc) []

/-- Does a content item carry one of the given call ids
(orchestrators.py lines 139-143)? -/
def contentHasCallIdIn (ids : List String) (c : MsgContent) : Bool :=
  match c with
  | .functionCall cid _ => cid ≠ "" ∧ cid ∈ ids
  | .functionResult cid => cid ≠ "" ∧ cid ∈ ids
  | .text _ => false

/-- Second pass of `_filter_frontend_tool_calls` applied to one message
(orchestrators.py lines 124-194), returning `none` when the message is
dropped. -/
def filterFrontendMsg (ids : List String) (m : ChatMessage) : Option ChatMessage :=
  match m.role with
  | .user => some m
  | .tool =>
      if m.contents.any (contentHasCallIdIn ids) then none else some m
  | .assistant =>
      let hasFrontend := m.contents.any fun c =>
        match c with
        | .functionCall cid _ => cid ≠ "" ∧ cid ∈ ids
        | _ => false
      let hasBackend := m.contents.any fun c =>
        match c with
        | .functionCall cid _ => ¬ (cid ≠ "" ∧ cid ∈ ids)
        | _ => false
      if hasFrontend then
        if ¬ hasBackend then none
        else
          let newContents := m.contents.filter fun c =>
            match c with
            | .functionCall cid _ => ¬ (cid ≠ "" ∧ cid ∈ ids)
            | _ => true
          if newContents.isEmpty then none
          else some { m with contents := newContents }
      else some m
  | .system => some m

/-- The frontend-tool-call history filter
`DeduplicatingOrchestrator._filter_frontend_tool_calls`
(orchestrators.py lines 74-199). -/
def filterFrontendToolCalls (msgs : List ChatMessage) : List ChatMessage :=
  let ids := collectFrontendIds msgs
  if ids.isEmpty then msgs
  else msgs.filterMap (filterFrontendMsg ids)

/-- Detection of a turn that is only a frontend tool result
(`DeduplicatingOrchestrator._is_frontend_tool_result_only`,
orchestrators.py lines 293-343): the last message is a tool message whose
FunctionResultContent call id matches a FunctionCallContent of a
frontend-only tool in some assistant message. -/
def isFrontendToolResultOnly (msgs : List ChatMessage) : Bool :=
  match msgs.getLast? with
  | none => false
  | some lastMsg =>
      (lastMsg.role = Role.tool : Bool) &&
      lastMsg.contents.any fun c =>
        match c with
        | .functionResult cid =>
            cid ≠ "" &&
            msgs.any fun m =>
              (m.role = Role.assistant : Bool) &&
              m.contents.any fun c2 =>
                match c2 with
                | .functionCall cid2 name =>
                    cid2 = cid ∧ name ∈ FRONTEND_ONLY_TOOLS
                | _ => false
        | _ => false

/-- Extraction of frontend-owned state fields from the incoming request
state (orchestrators.py lines 425-435): keep each FRONTEND_ONLY_STATE_FIELDS
entry that is present and not None. -/
def frontendStateOf (incoming : Dict) : Dict :=
  FRONTEND_ONLY_STATE_FIELDS.foldl
    (fun acc f =>
      match lookupKey f incoming with
      | some .null => acc
      | some v => setKey f v acc
      | none => acc)
    []

/-- The predicate `role == Role.USER or role == Role.TOOL` of
responses_api.py line 161: the message is a fresh input for the backend. -/
def isNewInput (m : ChatMessage) : Bool :=
  match m.role with
  | .user => true
  | .tool => true
  | _ => false

/-- Index of the last user-or-tool message (the backwards scan of
responses_api.py lines 156-163). -/
def lastInputIdx : List ChatMessage → Option Nat
  | [] => none
  | m :: rest =>
      match lastInputIdx rest with
      | some i => some (i + 1)
      | none => if isNewInput m then some 0 else none

/-- The continuation history filter
`ResponsesApiThreadMiddleware._filter_messages_for_api`
(responses_api.py lines 131-173): keep only the suffix starting at the last
user-or-tool message; if there is none, leave the history unchanged. -/
def filterMessagesForApi (msgs : List ChatMessage) : List ChatMessage :=
  match lastInputIdx msgs with
  | none => msgs
  | some i => msgs.drop i

/-- The run id used by the frontend short-circuit
(orchestrators.py lines 374, 379). -/
def frontendActionRunId : String := "frontend-action-complete"

/-- One turn's inbound request: thread id, message history and the
client-declared state map (`context.input_data["state"]`). -/
structure TurnInput where
  threadId : String
  messages : List ChatMessage
  state : Dict

/-- Remove a thread's stored response id (`del thread_response_store[tid]`). -/
def eraseKeyStore (k : String) : List (String × String) → List (String × String)
  | [] => []
  | p :: rest => if p.1 = k then eraseKeyStore k rest else p :: eraseKeyStore k rest

/-- The top level of `DeduplicatingOrchestrator.run`
(orchestrators.py lines 345-722).  `store` is the thread-to-response-id
store, `backend` the opaque inner orchestrator: it maps the (filtered)
message history to the raw event stream of the turn.  Returns the updated
store and the outbound event stream.  (The ContextVar plumbing for
`current_active_filter`, which only feeds tool implementations, is outside
the event-stream model.) -/
def runTurn (parse : String → Option Value) (store : List (String × String))
    (inp : TurnInput) (backend : List ChatMessage → List Event) :
    List (String × String) × List Event :=
  if isFrontendToolResultOnly inp.messages then
    -- lines 362-380: short-circuit, never invoking the backend
    let store1 :=
      if inp.threadId ≠ "" ∧ hasKey inp.threadId store then
        eraseKeyStore inp.threadId store
      else store
    (store1,
     [.runStarted inp.threadId frontendActionRunId]
       ++ (if inp.state.isEmpty then [] else [.stateSnapshot inp.state])
       ++ [.runFinished inp.threadId frontendActionRunId])
  else
    -- lines 385-397: history shaping, then the reconciliation loop
    let msgs1 := filterFrontendToolCalls inp.messages
    let isCont := inp.threadId ≠ "" ∧ hasKey inp.threadId store
    let msgs2 := if isCont then msgs1 else filterFreshStart msgs1
    (store, (runEvents parse (initState (frontendStateOf inp.state)) (backend msgs2)).2)

/-! Event classification helpers used in theorem statements. -/

/-- Is this a ToolCallStart event for the given tool call id? -/
def Event.isToolStartFor (id : String) : Event → Bool
  | .toolCallStart i _ => i = id
  | _ => false

/-- Is this a ToolCallArgs event for the given tool call id? -/
def Event.isToolArgsFor (id : String) : Event → Bool
  | .toolCallArgs i _ => i = id
  | _ => false

/-- Is this a ToolCallEnd event for the given tool call id? -/
def Event.isToolEndFor (id : String) : Event → Bool
  | .toolCallEnd i => i = id
  | _ => false

/-- Is this a ToolCallResult event for the given tool call id? -/
def Event.isToolResultFor (id : String) : Event → Bool
  | .toolCallResult i _ => i = id
  | _ => false

/-- Is this a ToolCallArgs, ToolCallEnd or ToolCallResult event for the id? -/
def Event.isToolFollowUpFor (id : String) (e : Event) : Bool :=
  e.isToolArgsFor id || e.isToolEndFor id || e.isToolResultFor id

/-- Is this a text-message event (Start, Content or End) for the message? -/
def Event.isTextFor (m : String) : Event → Bool
  | .textStart i => i = m
  | .textContent i _ => i = m
  | .textEnd i => i = m
  | _ => false

/-- Is this a TextMessageStart or TextMessageContent event (of any message)? -/
def Event.isTextStartOrContent : Event → Bool
  | .textStart _ => true
  | .textContent _ _ => true
  | _ => false

/-- Is this a TextMessageEnd event for the message? -/
def Event.isTextEndFor (m : String) : Event → Bool
  | .textEnd i => i = m
  | _ => false

/-- Is this a TextMessageContent event for the message? -/
def Event.isTextContentFor (m : String) : Event → Bool
  | .textContent i _ => i = m
  | _ => false

/-- Is this a RunFinished event? -/
def Event.isRunFinishedEv : Event → Bool
  | .runFinished _ _ => true
  | _ => false

/-- Does this event set the `command_tool_called` flag when processed?
A ToolCallStart of a COMMAND_TOOLS tool does (orchestrators.py line 502);
a ToolCallResult whose parsed content is a mapping with an `activeFilter`
key does (line 633). -/
def triggersCommand (parse : String → Option Value) : Event → Bool
  | .toolCallStart _ name => name ∈ COMMAND_TOOLS
  | .toolCallResult _ content =>
      match parsedResult parse content with
      | .obj kvs => hasKey "activeFilter" kvs
      | _ => false
  | _ => false

/-! Association-list lemmas. -/

theorem lookupKey_setKey (k k' : String) (v : α) (d : List (String × α)) :
    lookupKey k' (setKey k v d) = if k = k' then some v else lookupKey k' d := by
  induction d with
  | nil => simp [setKey, lookupKey]
  | cons p rest ih =>
      by_cases h : p.1 = k
      · simp only [setKey, if_pos h, lookupKey]
        by_cases h' : k = k'
        · simp [h']
        · have : ¬ p.1 = k' := by rw [h]; exact h'
          simp [h', this]
      · simp only [setKey, if_neg h, lookupKey]
        by_cases h' : p.1 = k'
        · have : ¬ k = k' := fun hk => h (hk ▸ h')
          simp [h', this]
        · simp [h', ih]

theorem lookupKey_dictMerge (k : String) (a b : List (String × α)) :
    lookupKey k (dictMerge a b) =
      match lastVal k b with
      | some v => some v
      | none => lookupKey k a := by
  induction b generalizing a with
  | nil => simp [dictMerge, lastVal]
  | cons p rest ih =>
      simp only [dictMerge, lastVal, ih, lookupKey_setKey]
      cases h : lastVal k rest with
      | some v => simp
      | none =>
          by_cases h' : p.1 = k
          · simp [h']
          · simp [h']

/-- Keys of an association list are pairwise distinct. -/
def keysNodup (d : List (String × α)) : Prop := (d.map Prod.fst).Nodup

theorem lookupKey_eq_none_of_not_mem (k : String) (d : List (String × α))
    (h : k ∉ d.map Prod.fst) : lookupKey k d = none := by
  induction d with
  | nil => rfl
  | cons p rest ih =>
      simp only [List.map_cons, List.mem_cons] at h
      push_neg at h
      simp only [lookupKey]
      rw [if_neg (fun he => h.1 he.symm)]
      exact ih h.2

theorem lastVal_eq_lookupKey (k : String) (d : List (String × α))
    (h : keysNodup d) : lastVal k d = lookupKey k d := by
  induction d with
  | nil => rfl
  | cons p rest ih =>
      simp only [keysNodup, List.map_cons, List.nodup_cons] at h
      simp only [lastVal, lookupKey, ih h.2]
      by_cases h' : p.1 = k
      · have : k ∉ rest.map Prod.fst := h'.symm ▸ h.1
        rw [lookupKey_eq_none_of_not_mem k rest this]
      · cases lookupKey k rest <;> simp [h']

theorem mem_setKey (k : String) (v : α) (d : List (String × α)) (q : String × α)
    (hq : q ∈ setKey k v d) : q.1 = k ∨ q.1 ∈ d.map Prod.fst := by
  induction d with
  | nil =>
      simp only [setKey, List.mem_singleton] at hq
      left; simp [hq]
  | cons r rr ihr =>
      by_cases hr : r.1 = k
      · simp only [setKey, if_pos hr, List.mem_cons] at hq
        rcases hq with hq | hq
        · left; simp [hq]
        · right; simp only [List.map_cons, List.mem_cons]; right
          exact List.mem_map_of_mem Prod.fst hq
      · simp only [setKey, if_neg hr, List.mem_cons] at hq
        rcases hq with hq | hq
        · right; simp [hq]
        · rcases ihr hq with hh | hh
          · exact Or.inl hh
          · right; simp only [List.map_cons, List.mem_cons]; exact Or.inr hh

theorem keysNodup_setKey (k : String) (v : α) (d : List (String × α))
    (h : keysNodup d) : keysNodup (setKey k v d) := by
  induction d with
  | nil => simp [setKey, keysNodup]
  | cons p rest ih =>
      simp only [keysNodup, List.map_cons, List.nodup_cons] at h
      by_cases h' : p.1 = k
      · simpa [setKey, h', keysNodup, h'.symm ▸ h.1] using h.2
      · have hk : keysNodup (setKey k v rest) := ih h.2
        simp only [setKey, if_neg h', keysNodup, List.map_cons, List.nodup_cons]
        refine ⟨?_, hk⟩
        intro hmem
        rcases List.mem_map.mp hmem with ⟨q, hq, hq1⟩
        rcases mem_setKey k v rest q hq with hh | hh
        · exact h' (hq1 ▸ hh)
        · exact h.1 (hq1 ▸ hh)

theorem lookupKey_eraseKeyStore (k : String) (d : List (String × String)) :
    lookupKey k (eraseKeyStore k d) = none := by
  induction d with
  | nil => rfl
  | cons p rest ih =>
      by_cases h : p.1 = k
      · simpa [eraseKeyStore, h] using ih
      · simpa [eraseKeyStore, h, lookupKey] using ih

/-! Composition lemmas for `runEvents`. -/

@[simp] theorem runEvents_nil (parse : String → Option Value) (s : RunState) :
    runEvents parse s [] = (s, []) := rfl

theorem runEvents_cons (parse : String → Option Value) (s : RunState) (e : Event)
    (l : List Event) :
    runEvents parse s (e :: l) =
      ((runEvents parse (step parse s e).1 l).1,
       (step parse s e).2 ++ (runEvents parse (step parse s e).1 l).2) := rfl

theorem runEvents_append (parse : String → Option Value) (s : RunState)
    (l1 l2 : List Event) :
    runEvents parse s (l1 ++ l2) =
      ((runEvents parse (runEvents parse s l1).1 l2).1,
       (runEvents parse s l1).2 ++ (runEvents parse (runEvents parse s l1).1 l2).2) := by
  induction l1 generalizing s with
  | nil => simp
  | cons e rest ih =>
      simp only [List.cons_append, runEvents_cons, ih, List.append_assoc]

/-! Branch equations for `step`, one per control path of the loop body. -/

section StepEquations

variable (parse : String → Option Value) (s : RunState)

theorem step_snapshot (snap : Dict) :
    step parse s (.stateSnapshot snap) =
      ({ s with lastInnerState := updateInner s.lastInnerState snap }, []) := rfl

theorem step_runStarted (t r : String) :
    step parse s (.runStarted t r) = (s, [.runStarted t r]) := rfl

theorem step_runFinished (t r : String) :
    step parse s (.runFinished t r) =
      ({ s with activeTextIds := [], pendingStartIds := [] },
       s.activeTextIds.map Event.textEnd ++
         [.stateSnapshot (mergeLayers s.lastInnerState s.extractedState s.frontendState),
          .runFinished t r]) := rfl

theorem step_start_dup (id n : String) (h : id ∈ s.seen) :
    step parse s (.toolCallStart id n) = (s, []) := by
  simp [step, h]

theorem step_start_new (id n : String) (h : id ∉ s.seen) :
    step parse s (.toolCallStart id n) =
      ({ s with seen := s.seen ++ [id],
                toolCallNames := setKey id n s.toolCallNames,
                commandToolCalled :=
                  if n ∈ COMMAND_TOOLS then true else s.commandToolCalled },
       [.toolCallStart id n]) := by
  simp only [step, if_neg h]
  split <;> rename_i hc <;> simp [hc]

theorem step_args_unknown (id d : String) (h : id ∉ s.seen) :
    step parse s (.toolCallArgs id d) = (s, []) := by
  simp [step, h]

theorem step_args_completed (id d : String) (h : id ∈ s.seen) (h2 : id ∈ s.completed) :
    step parse s (.toolCallArgs id d) = (s, []) := by
  simp [step, h, h2]

theorem step_args_live (id d : String) (h : id ∈ s.seen) (h2 : id ∉ s.completed) :
    ∃ buf, step parse s (.toolCallArgs id d) =
      ({ s with argsBuffer := buf }, [.toolCallArgs id d]) := by
  simp only [step, if_neg (not_not_intro h), if_neg h2]
  split
  · exact ⟨_, rfl⟩
  · exact ⟨s.argsBuffer, rfl⟩

theorem step_end_unknown (id : String) (h : id ∉ s.seen) :
    step parse s (.toolCallEnd id) = (s, []) := by
  simp [step, h]

theorem step_end_completed (id : String) (h : id ∈ s.seen) (h2 : id ∈ s.completed) :
    step parse s (.toolCallEnd id) = (s, []) := by
  simp [step, h, h2]

theorem step_end_live (id : String) (h : id ∈ s.seen) (h2 : id ∉ s.completed) :
    ∃ ex tail,
      step parse s (.toolCallEnd id) =
        ({ s with completed := s.completed ++ [id], extractedState := ex },
         .toolCallEnd id :: tail) ∧
      (tail = [] ∨ ∃ d, tail = [Event.stateSnapshot d]) := by
  simp only [step, if_neg (not_not_intro h), if_neg h2]
  split
  · split
    · split
      all_goals first
        | exact ⟨_, _, rfl, Or.inr ⟨_, rfl⟩⟩
        | exact ⟨s.extractedState, _, rfl, Or.inl rfl⟩
    · exact ⟨s.extractedState, _, rfl, Or.inl rfl⟩
  · exact ⟨s.extractedState, _, rfl, Or.inl rfl⟩

theorem step_result_unknown (id : String) (c : Value) (h : id ∉ s.seen) :
    step parse s (.toolCallResult id c) = (s, []) := by
  simp [step, h]

theorem step_result_known (id : String) (c : Value) (h : id ∈ s.seen) :
    ∃ ex flag tail,
      step parse s (.toolCallResult id c) =
        ({ s with extractedState := ex, commandToolCalled := flag },
         .toolCallResult id c :: tail) ∧
      (tail = [] ∨ ∃ d, tail = [Event.stateSnapshot d]) ∧
      (s.commandToolCalled = true → flag = true) ∧
      (triggersCommand parse (.toolCallResult id c) = false →
        flag = s.commandToolCalled) := by
  simp only [step, if_neg (not_not_intro h), triggersCommand]
  split
  · rename_i kvs heq
    split
    · rename_i raw hraw
      refine ⟨_, true, _, rfl, Or.inr ⟨_, rfl⟩, fun _ => rfl, fun hcontra => ?_⟩
      simp [hasKey, hraw] at hcontra
    · exact ⟨_, s.commandToolCalled, _, rfl, Or.inl rfl, fun hh => hh, fun _ => rfl⟩
  · exact ⟨s.extractedState, s.commandToolCalled, _, rfl, Or.inl rfl, fun hh => hh,
      fun _ => rfl⟩

theorem step_textStart_flagged (m : String) (h : s.commandToolCalled = true) :
    step parse s (.textStart m) = (s, []) := by
  simp [step, h]

theorem step_textStart_dup (m : String) (h : s.commandToolCalled = false)
    (h2 : m ∈ s.pendingStartIds ∨ m ∈ s.activeTextIds) :
    step parse s (.textStart m) = (s, []) := by
  simp [step, h, h2]

theorem step_textStart_buffer (m : String) (h : s.commandToolCalled = false)
    (h2 : m ∉ s.pendingStartIds) (h3 : m ∉ s.activeTextIds) :
    step parse s (.textStart m) =
      ({ s with pendingStartIds := s.pendingStartIds ++ [m] }, []) := by
  have : ¬ (m ∈ s.pendingStartIds ∨ m ∈ s.activeTextIds) := by
    intro hc; rcases hc with hc | hc
    · exact h2 hc
    · exact h3 hc
  simp [step, h, this]

theorem step_textContent_flagged (m d : String) (h : s.commandToolCalled = true) :
    step parse s (.textContent m d) = (s, []) := by
  simp [step, h]

theorem step_textContent_pending (m d : String) (h : s.commandToolCalled = false)
    (h2 : m ∈ s.pendingStartIds) :
    step parse s (.textContent m d) =
      ({ s with pendingStartIds := removeFirst m s.pendingStartIds,
                activeTextIds := s.activeTextIds ++ [m] },
       [.textStart m, .textContent m d]) := by
  simp [step, h, h2]

theorem step_textContent_active (m d : String) (h : s.commandToolCalled = false)
    (h2 : m ∉ s.pendingStartIds) (h3 : m ∈ s.activeTextIds) :
    step parse s (.textContent m d) = (s, [.textContent m d]) := by
  simp [step, h, h2, h3]

theorem step_textContent_unknown (m d : String) (h : s.commandToolCalled = false)
    (h2 : m ∉ s.pendingStartIds) (h3 : m ∉ s.activeTextIds) :
    step parse s (.textContent m d) = (s, []) := by
  simp [step, h, h2, h3]

theorem step_textEnd_pending (m : String) (h : m ∈ s.pendingStartIds) :
    step parse s (.textEnd m) =
      ({ s with pendingStartIds := removeFirst m s.pendingStartIds }, []) := by
  simp [step, h]

theorem step_textEnd_unknown (m : String) (h : m ∉ s.pendingStartIds)
    (h2 : m ∉ s.activeTextIds) :
    step parse s (.textEnd m) = (s, []) := by
  simp [step, h, h2]

theorem step_textEnd_active (m : String) (h : m ∉ s.pendingStartIds)
    (h2 : m ∈ s.activeTextIds) :
    step parse s (.textEnd m) =
      ({ s with activeTextIds := removeFirst m s.activeTextIds }, [.textEnd m]) := by
  simp [step, h, h2]

end StepEquations

/-! Cross-branch facts about a single `step`. -/

section StepFacts

variable (parse : String → Option Value) (s : RunState)

theorem step_seen (e : Event) :
    (step parse s e).1.seen = s.seen ∨
    ∃ i n, e = .toolCallStart i n ∧ i ∉ s.seen ∧
      (step parse s e).1.seen = s.seen ++ [i] := by
  cases e with
  | stateSnapshot snap => left; rw [step_snapshot]
  | runStarted t r => left; rw [step_runStarted]
  | runFinished t r => left; rw [step_runFinished]
  | textStart m =>
      left
      by_cases h : s.commandToolCalled = true
      · rw [step_textStart_flagged _ _ _ h]
      · replace h : s.commandToolCalled = false := by
          cases hc : s.commandToolCalled
          · rfl
          · exact absurd hc h
        by_cases h2 : m ∈ s.pendingStartIds ∨ m ∈ s.activeTextIds
        · rw [step_textStart_dup _ _ _ h h2]
        · push_neg at h2
          rw [step_textStart_buffer _ _ _ h h2.1 h2.2]
  | textContent m d =>
      left
      by_cases h : s.commandToolCalled = true
      · rw [step_textContent_flagged _ _ _ _ h]
      · replace h : s.commandToolCalled = false := by
          cases hc : s.commandToolCalled
          · rfl
          · exact absurd hc h
        by_cases h2 : m ∈ s.pendingStartIds
        · rw [step_textContent_pending _ _ _ _ h h2]
        · by_cases h3 : m ∈ s.activeTextIds
          · rw [step_textContent_active _ _ _ _ h h2 h3]
          · rw [step_textContent_unknown _ _ _ _ h h2 h3]
  | textEnd m =>
      left
      by_cases h : m ∈ s.pendingStartIds
      · rw [step_textEnd_pending _ _ _ h]
      · by_cases h2 : m ∈ s.activeTextIds
        · rw [step_textEnd_active _ _ _ h h2]
        · rw [step_textEnd_unknown _ _ _ h h2]
  | toolCallStart i n =>
      by_cases h : i ∈ s.seen
      · left; rw [step_start_dup _ _ _ _ h]
      · right
        exact ⟨i, n, rfl, h, by rw [step_start_new _ _ _ _ h]⟩
  | toolCallArgs i d =>
      left
      by_cases h : i ∈ s.seen
      · by_cases h2 : i ∈ s.completed
        · rw [step_args_completed _ _ _ _ h h2]
        · obtain ⟨buf, heq⟩ := step_args_live parse s i d h h2
          rw [heq]
      · rw [step_args_unknown _ _ _ _ h]
  | toolCallEnd i =>
      left
      by_cases h : i ∈ s.seen
      · by_cases h2 : i ∈ s.completed
        · rw [step_end_completed _ _ _ h h2]
        · obtain ⟨ex, tail, heq, _⟩ := step_end_live parse s i h h2
          rw [heq]
      · rw [step_end_unknown _ _ _ h]
  | toolCallResult i c =>
      left
      by_cases h : i ∈ s.seen
      · obtain ⟨ex, flag, tail, heq, _⟩ := step_result_known parse s i c h
        rw [heq]
      · rw [step_result_unknown _ _ _ _ h]

theorem step_completed (e : Event) :
    (step parse s e).1.completed = s.completed ∨
    ∃ i, e = .toolCallEnd i ∧ i ∈ s.seen ∧ i ∉ s.completed ∧
      (step parse s e).1.completed = s.completed ++ [i] := by
  cases e with
  | stateSnapshot snap => left; rw [step_snapshot]
  | runStarted t r => left; rw [step_runStarted]
  | runFinished t r => left; rw [step_runFinished]
  | textStart m =>
      left
      by_cases h : s.commandToolCalled = true
      · rw [step_textStart_flagged _ _ _ h]
      · replace h : s.commandToolCalled = false := by
          cases hc : s.commandToolCalled
          · rfl
          · exact absurd hc h
        by_cases h2 : m ∈ s.pendingStartIds ∨ m ∈ s.activeTextIds
        · rw [step_textStart_dup _ _ _ h h2]
        · push_neg at h2
          rw [step_textStart_buffer _ _ _ h h2.1 h2.2]
  | textContent m d =>
      left
      by_cases h : s.commandToolCalled = true
      · rw [step_textContent_flagged _ _ _ _ h]
      · replace h : s.commandToolCalled = false := by
          cases hc : s.commandToolCalled
          · rfl
          · exact absurd hc h
        by_cases h2 : m ∈ s.pendingStartIds
        · rw [step_textContent_pending _ _ _ _ h h2]
        · by_cases h3 : m ∈ s.activeTextIds
          · rw [step_textContent_active _ _ _ _ h h2 h3]
          · rw [step_textContent_unknown _ _ _ _ h h2 h3]
  | textEnd m =>
      left
      by_cases h : m ∈ s.pendingStartIds
      · rw [step_textEnd_pending _ _ _ h]
      · by_cases h2 : m ∈ s.activeTextIds
        · rw [step_textEnd_active _ _ _ h h2]
        · rw [step_textEnd_unknown _ _ _ h h2]
  | toolCallStart i n =>
      left
      by_cases h : i ∈ s.seen
      · rw [step_start_dup _ _ _ _ h]
      · rw [step_start_new _ _ _ _ h]
  | toolCallArgs i d =>
      left
      by_cases h : i ∈ s.seen
      · by_cases h2 : i ∈ s.completed
        · rw [step_args_completed _ _ _ _ h h2]
        · obtain ⟨buf, heq⟩ := step_args_live parse s i d h h2
          rw [heq]
      · rw [step_args_unknown _ _ _ _ h]
  | toolCallEnd i =>
      by_cases h : i ∈ s.seen
      · by_cases h2 : i ∈ s.completed
        · left; rw [step_end_completed _ _ _ h h2]
        · obtain ⟨ex, tail, heq, _⟩ := step_end_live parse s i h h2
          right
          exact ⟨i, rfl, h, h2, by rw [heq]⟩
      · left; rw [step_end_unknown _ _ _ h]
  | toolCallResult i c =>
      left
      by_cases h : i ∈ s.seen
      · obtain ⟨ex, flag, tail, heq, _⟩ := step_result_known parse s i c h
        rw [heq]
      · rw [step_result_unknown _ _ _ _ h]

/-- Master case analysis: every step falls into exactly one control path of
the loop body, with its full input-output equation. -/
theorem step_branches (e : Event) :
    (∃ snap, e = .stateSnapshot snap ∧
      step parse s e = ({ s with lastInnerState := updateInner s.lastInnerState snap }, [])) ∨
    (∃ t r, e = .runStarted t r ∧ step parse s e = (s, [e])) ∨
    (∃ t r, e = .runFinished t r ∧
      step parse s e =
        ({ s with activeTextIds := [], pendingStartIds := [] },
         s.activeTextIds.map Event.textEnd ++
           [.stateSnapshot (mergeLayers s.lastInnerState s.extractedState s.frontendState),
            e])) ∨
    (step parse s e = (s, [])) ∨
    (∃ i n, e = .toolCallStart i n ∧ i ∉ s.seen ∧
      step parse s e =
        ({ s with seen := s.seen ++ [i],
                  toolCallNames := setKey i n s.toolCallNames,
                  commandToolCalled :=
                    if n ∈ COMMAND_TOOLS then true else s.commandToolCalled }, [e])) ∨
    (∃ i d buf, e = .toolCallArgs i d ∧ i ∈ s.seen ∧ i ∉ s.completed ∧
      step parse s e = ({ s with argsBuffer := buf }, [e])) ∨
    (∃ i ex tail, e = .toolCallEnd i ∧ i ∈ s.seen ∧ i ∉ s.completed ∧
      step parse s e =
        ({ s with completed := s.completed ++ [i], extractedState := ex }, e :: tail) ∧
      (tail = [] ∨ ∃ d, tail = [Event.stateSnapshot d])) ∨
    (∃ i c ex flag tail, e = .toolCallResult i c ∧ i ∈ s.seen ∧
      step parse s e = ({ s with extractedState := ex, commandToolCalled := flag }, e :: tail) ∧
      (tail = [] ∨ ∃ d, tail = [Event.stateSnapshot d]) ∧
      (s.commandToolCalled = true → flag = true) ∧
      (triggersCommand parse e = false → flag = s.commandToolCalled)) ∨
    (∃ m, e = .textStart m ∧ s.commandToolCalled = false ∧
      m ∉ s.pendingStartIds ∧ m ∉ s.activeTextIds ∧
      step parse s e = ({ s with pendingStartIds := s.pendingStartIds ++ [m] }, [])) ∨
    (∃ m d, e = .textContent m d ∧ s.commandToolCalled = false ∧ m ∈ s.pendingStartIds ∧
      step parse s e =
        ({ s with pendingStartIds := removeFirst m s.pendingStartIds,
                  activeTextIds := s.activeTextIds ++ [m] },
         [.textStart m, e])) ∨
    (∃ m d, e = .textContent m d ∧ s.commandToolCalled = false ∧
      m ∉ s.pendingStartIds ∧ m ∈ s.activeTextIds ∧ step parse s e = (s, [e])) ∨
    (∃ m, e = .textEnd m ∧ m ∈ s.pendingStartIds ∧
      step parse s e = ({ s with pendingStartIds := removeFirst m s.pendingStartIds }, [])) ∨
    (∃ m, e = .textEnd m ∧ m ∉ s.pendingStartIds ∧ m ∈ s.activeTextIds ∧
      step parse s e = ({ s with activeTextIds := removeFirst m s.activeTextIds }, [e])) := by
  cases e with
  | stateSnapshot snap => exact Or.inl ⟨snap, rfl, step_snapshot parse s snap⟩
  | runStarted t r => exact Or.inr (Or.inl ⟨t, r, rfl, step_runStarted parse s t r⟩)
  | runFinished t r =>
      exact Or.inr (Or.inr (Or.inl ⟨t, r, rfl, step_runFinished parse s t r⟩))
  | toolCallStart i n =>
      by_cases h : i ∈ s.seen
      · exact Or.inr (Or.inr (Or.inr (Or.inl (step_start_dup parse s i n h))))
      · exact Or.inr (Or.inr (Or.inr (Or.inr (Or.inl
          ⟨i, n, rfl, h, step_start_new parse s i n h⟩))))
  | toolCallArgs i d =>
      by_cases h : i ∈ s.seen
      · by_cases h2 : i ∈ s.completed
        · exact Or.inr (Or.inr (Or.inr (Or.inl (step_args_completed parse s i d h h2))))
        · obtain ⟨buf, heq⟩ := step_args_live parse s i d h h2
          exact Or.inr (Or.inr (Or.inr (Or.inr (Or.inr (Or.inl
            ⟨i, d, buf, rfl, h, h2, heq⟩)))))
      · exact Or.inr (Or.inr (Or.inr (Or.inl (step_args_unknown parse s i d h))))
  | toolCallEnd i =>
      by_cases h : i ∈ s.seen
      · by_cases h2 : i ∈ s.completed
        · exact Or.inr (Or.inr (Or.inr (Or.inl (step_end_completed parse s i h h2))))
        · obtain ⟨ex, tail, heq, htail⟩ := step_end_live parse s i h h2
          exact Or.inr (Or.inr (Or.inr (Or.inr (Or.inr (Or.inr (Or.inl
            ⟨i, ex, tail, rfl, h, h2, heq, htail⟩))))))
      · exact Or.inr (Or.inr (Or.inr (Or.inl (step_end_unknown parse s i h))))
  | toolCallResult i c =>
      by_cases h : i ∈ s.seen
      · obtain ⟨ex, flag, tail, heq, htail, hmono, hstable⟩ :=
          step_result_known parse s i c h
        exact Or.inr (Or.inr (Or.inr (Or.inr (Or.inr (Or.inr (Or.inr (Or.inl
          ⟨i, c, ex, flag, tail, rfl, h, heq, htail, hmono, hstable⟩)))))))
      · exact Or.inr (Or.inr (Or.inr (Or.inl (step_result_unknown parse s i c h))))
  | textStart m =>
      by_cases h : s.commandToolCalled = true
      · exact Or.inr (Or.inr (Or.inr (Or.inl (step_textStart_flagged parse s m h))))
      · replace h : s.commandToolCalled = false := by
          cases hc : s.commandToolCalled
          · rfl
          · exact absurd hc h
        by_cases h2 : m ∈ s.pendingStartIds ∨ m ∈ s.activeTextIds
        · exact Or.inr (Or.inr (Or.inr (Or.inl (step_textStart_dup parse s m h h2))))
        · push_neg at h2
          exact Or.inr (Or.inr (Or.inr (Or.inr (Or.inr (Or.inr (Or.inr (Or.inr (Or.inl
            ⟨m, rfl, h, h2.1, h2.2, step_textStart_buffer parse s m h h2.1 h2.2⟩))))))))
  | textContent m d =>
      by_cases h : s.commandToolCalled = true
      · exact Or.inr (Or.inr (Or.inr (Or.inl (step_textContent_flagged parse s m d h))))
      · replace h : s.commandToolCalled = false := by
          cases hc : s.commandToolCalled
          · rfl
          · exact absurd hc h
        by_cases h2 : m ∈ s.pendingStartIds
        · exact Or.inr (Or.inr (Or.inr (Or.inr (Or.inr (Or.inr (Or.inr (Or.inr (Or.inr
            (Or.inl ⟨m, d, rfl, h, h2, step_textContent_pending parse s m d h h2⟩)))))))))
        · by_cases h3 : m ∈ s.activeTextIds
          · exact Or.inr (Or.inr (Or.inr (Or.inr (Or.inr (Or.inr (Or.inr (Or.inr (Or.inr
              (Or.inr (Or.inl
                ⟨m, d, rfl, h, h2, h3, step_textContent_active parse s m d h h2 h3⟩))))))))))
          · exact Or.inr (Or.inr (Or.inr (Or.inl
              (step_textContent_unknown parse s m d h h2 h3))))
  | textEnd m =>
      by_cases h : m ∈ s.pendingStartIds
      · exact Or.inr (Or.inr (Or.inr (Or.inr (Or.inr (Or.inr (Or.inr (Or.inr (Or.inr
          (Or.inr (Or.inr (Or.inl ⟨m, rfl, h, step_textEnd_pending parse s m h⟩)))))))))))
      · by_cases h2 : m ∈ s.activeTextIds
        · exact Or.inr (Or.inr (Or.inr (Or.inr (Or.inr (Or.inr (Or.inr (Or.inr (Or.inr
            (Or.inr (Or.inr (Or.inr
              ⟨m, rfl, h, h2, step_textEnd_active parse s m h h2⟩)))))))))))
        · exact Or.inr (Or.inr (Or.inr (Or.inl (step_textEnd_unknown parse s m h h2))))

/-! Helper facts about `removeFirst`. -/

theorem mem_removeFirst_imp (k m : String) (l : List String)
    (h : m ∈ removeFirst k l) : m ∈ l := by
  induction l with
  | nil => simpa [removeFirst] using h
  | cons x rest ih =>
      by_cases hx : x = k
      · simp only [removeFirst, if_pos hx] at h
        exact List.mem_cons_of_mem x h
      · simp only [removeFirst, if_neg hx, List.mem_cons] at h
        rcases h with h | h
        · simp [h]
        · exact List.mem_cons_of_mem x (ih h)

theorem mem_removeFirst_of_ne (k m : String) (l : List String)
    (h : m ∈ l) (hne : m ≠ k) : m ∈ removeFirst k l := by
  induction l with
  | nil => simp at h
  | cons x rest ih =>
      by_cases hx : x = k
      · simp only [removeFirst, if_pos hx]
        rcases List.mem_cons.mp h with h | h
        · exact absurd (h.trans hx) hne
        · exact h
      · simp only [removeFirst, if_neg hx, List.mem_cons]
        rcases List.mem_cons.mp h with h | h
        · exact Or.inl h
        · exact Or.inr (ih h)

theorem nodup_removeFirst (k : String) (l : List String)
    (h : l.Nodup) : (removeFirst k l).Nodup := by
  induction l with
  | nil => simp [removeFirst]
  | cons x rest ih =>
      simp only [List.nodup_cons] at h
      by_cases hx : x = k
      · simpa [removeFirst, hx] using h.2
      · simp only [removeFirst, if_neg hx, List.nodup_cons]
        exact ⟨fun hc => h.1 (mem_removeFirst_imp k x rest hc), ih h.2⟩

theorem removeFirst_cons_self (m : String) (t : List String) :
    removeFirst m (m :: t) = t := by
  simp [removeFirst]

/-! Derived facts about a single `step`. -/

/-- Everything in a step's output is the input event itself, a state
snapshot, the flush of a buffered TextMessageStart, or a synthetic
TextMessageEnd at RunFinished. -/
theorem step_out_mem (e x : Event) (hx : x ∈ (step parse s e).2) :
    x = e ∨ (∃ d, x = .stateSnapshot d) ∨
    (∃ m d, e = .textContent m d ∧ x = .textStart m ∧
      s.commandToolCalled = false ∧ m ∈ s.pendingStartIds) ∨
    (∃ m t r, e = .runFinished t r ∧ x = .textEnd m ∧ m ∈ s.activeTextIds) := by
  rcases step_branches parse s e with
      ⟨snap, he, heq⟩ | ⟨t, r, he, heq⟩ | ⟨t, r, he, heq⟩ | heq |
      ⟨i, n, he, hn, heq⟩ | ⟨i, d, buf, he, hi, hc, heq⟩ |
      ⟨i, ex, tail, he, hi, hc, heq, htail⟩ |
      ⟨i, c, ex, flag, tail, he, hi, heq, htail, hmono, hstable⟩ |
      ⟨m, he, hf, hp, ha, heq⟩ | ⟨m, d, he, hf, hp, heq⟩ |
      ⟨m, d, he, hf, hp, ha, heq⟩ | ⟨m, he, hp, heq⟩ | ⟨m, he, hp, ha, heq⟩ <;>
    rw [heq] at hx <;>
    simp only [List.mem_append, List.mem_map, List.mem_cons,
      List.not_mem_nil, or_false, false_or] at hx
  · exact Or.inl hx
  · rcases hx with ⟨m, hm, hxe⟩ | hx | hx
    · exact Or.inr (Or.inr (Or.inr ⟨m, t, r, he, hxe.symm, hm⟩))
    · exact Or.inr (Or.inl ⟨_, hx⟩)
    · exact Or.inl hx
  · exact Or.inl hx
  · exact Or.inl hx
  · rcases hx with hx | hx
    · exact Or.inl hx
    · rcases htail with ht | ⟨d, ht⟩
      · rw [ht] at hx; simp at hx
      · rw [ht] at hx; simp only [List.mem_cons, List.not_mem_nil, or_false] at hx
        exact Or.inr (Or.inl ⟨d, hx⟩)
  · rcases hx with hx | hx
    · exact Or.inl hx
    · rcases htail with ht | ⟨d, ht⟩
      · rw [ht] at hx; simp at hx
      · rw [ht] at hx; simp only [List.mem_cons, List.not_mem_nil, or_false] at hx
        exact Or.inr (Or.inl ⟨d, hx⟩)
  · rcases hx with hx | hx
    · exact Or.inr (Or.inr (Or.inl ⟨m, d, he, hx, hf, hp⟩))
    · exact Or.inl hx
  · exact Or.inl hx
  · exact Or.inl hx

/-- The command flag is never reset within a turn. -/
theorem step_flag_mono (e : Event) (h : s.commandToolCalled = true) :
    (step parse s e).1.commandToolCalled = true := by
  rcases step_branches parse s e with
      ⟨snap, he, heq⟩ | ⟨t, r, he, heq⟩ | ⟨t, r, he, heq⟩ | heq |
      ⟨i, n, he, hn, heq⟩ | ⟨i, d, buf, he, hi, hc, heq⟩ |
      ⟨i, ex, tail, he, hi, hc, heq, htail⟩ |
      ⟨i, c, ex, flag, tail, he, hi, heq, htail, hmono, hstable⟩ |
      ⟨m, he, hf, hp, ha, heq⟩ | ⟨m, d, he, hf, hp, heq⟩ |
      ⟨m, d, he, hf, hp, ha, heq⟩ | ⟨m, he, hp, heq⟩ | ⟨m, he, hp, ha, heq⟩ <;>
    rw [heq] <;> simp_all

/-- The command flag is unchanged by a non-triggering event. -/
theorem step_flag_stable (e : Event) (h : triggersCommand parse e = false) :
    (step parse s e).1.commandToolCalled = s.commandToolCalled := by
  rcases step_branches parse s e with
      ⟨snap, he, heq⟩ | ⟨t, r, he, heq⟩ | ⟨t, r, he, heq⟩ | heq |
      ⟨i, n, he, hn, heq⟩ | ⟨i, d, buf, he, hi, hc, heq⟩ |
      ⟨i, ex, tail, he, hi, hc, heq, htail⟩ |
      ⟨i, c, ex, flag, tail, he, hi, heq, htail, hmono, hstable⟩ |
      ⟨m, he, hf, hp, ha, heq⟩ | ⟨m, d, he, hf, hp, heq⟩ |
      ⟨m, d, he, hf, hp, ha, heq⟩ | ⟨m, he, hp, heq⟩ | ⟨m, he, hp, ha, heq⟩ <;>
    rw [heq]
  all_goals try rfl
  · subst he
    simp only [triggersCommand] at h
    simp only [h]
    simp at h
    simp [h]
  · exact hstable h

/-- A message never becomes active except through a TextMessageContent
event for it. -/
theorem step_active_not_mem (e : Event) (m : String) (h : m ∉ s.activeTextIds)
    (he : ∀ d, e ≠ .textContent m d) : m ∉ (step parse s e).1.activeTextIds := by
  rcases step_branches parse s e with
      ⟨snap, heq2, heq⟩ | ⟨t, r, heq2, heq⟩ | ⟨t, r, heq2, heq⟩ | heq |
      ⟨i, n, heq2, hn, heq⟩ | ⟨i, d, buf, heq2, hi, hc, heq⟩ |
      ⟨i, ex, tail, heq2, hi, hc, heq, htail⟩ |
      ⟨i, c, ex, flag, tail, heq2, hi, heq, htail, hmono, hstable⟩ |
      ⟨m2, heq2, hf, hp, ha, heq⟩ | ⟨m2, d, heq2, hf, hp, heq⟩ |
      ⟨m2, d, heq2, hf, hp, ha, heq⟩ | ⟨m2, heq2, hp, heq⟩ | ⟨m2, heq2, hp, ha, heq⟩ <;>
    rw [heq] <;> try exact h
  · simp
  · -- content-pending branch appends m2, which differs from m
    have hne : m ≠ m2 := by
      intro hcon
      exact he d (by rw [heq2, hcon])
    simp only [List.mem_append, List.mem_singleton]
    intro hcon
    rcases hcon with hcon | hcon
    · exact h hcon
    · exact hne hcon
  · -- textEnd-active branch removes an element
    intro hcon
    exact h (mem_removeFirst_imp m2 m s.activeTextIds hcon)

/-- An active message stays active unless its TextMessageEnd arrives or the
run finishes. -/
theorem step_active_keep (e : Event) (m : String) (h : m ∈ s.activeTextIds)
    (he : e ≠ .textEnd m) (hrf : e.isRunFinishedEv = false) :
    m ∈ (step parse s e).1.activeTextIds := by
  rcases step_branches parse s e with
      ⟨snap, heq2, heq⟩ | ⟨t, r, heq2, heq⟩ | ⟨t, r, heq2, heq⟩ | heq |
      ⟨i, n, heq2, hn, heq⟩ | ⟨i, d, buf, heq2, hi, hc, heq⟩ |
      ⟨i, ex, tail, heq2, hi, hc, heq, htail⟩ |
      ⟨i, c, ex, flag, tail, heq2, hi, heq, htail, hmono, hstable⟩ |
      ⟨m2, heq2, hf, hp, ha, heq⟩ | ⟨m2, d, heq2, hf, hp, heq⟩ |
      ⟨m2, d, heq2, hf, hp, ha, heq⟩ | ⟨m2, heq2, hp, heq⟩ | ⟨m2, heq2, hp, ha, heq⟩ <;>
    rw [heq] <;> try exact h
  · rw [heq2] at hrf; simp [Event.isRunFinishedEv] at hrf
  · simp only [List.mem_append]
    exact Or.inl h
  · have hne : m ≠ m2 := by
      intro hcon
      exact he (by rw [heq2, hcon])
    exact mem_removeFirst_of_ne m2 m s.activeTextIds h hne

/-- A buffered-or-active message stays buffered-or-active unless its
TextMessageEnd arrives or the run finishes. -/
theorem step_union_keep (e : Event) (m : String)
    (h : m ∈ s.pendingStartIds ∨ m ∈ s.activeTextIds)
    (he : e ≠ .textEnd m) (hrf : e.isRunFinishedEv = false) :
    m ∈ (step parse s e).1.pendingStartIds ∨ m ∈ (step parse s e).1.activeTextIds := by
  rcases step_branches parse s e with
      ⟨snap, heq2, heq⟩ | ⟨t, r, heq2, heq⟩ | ⟨t, r, heq2, heq⟩ | heq |
      ⟨i, n, heq2, hn, heq⟩ | ⟨i, d, buf, heq2, hi, hc, heq⟩ |
      ⟨i, ex, tail, heq2, hi, hc, heq, htail⟩ |
      ⟨i, c, ex, flag, tail, heq2, hi, heq, htail, hmono, hstable⟩ |
      ⟨m2, heq2, hf, hp, ha, heq⟩ | ⟨m2, d, heq2, hf, hp, heq⟩ |
      ⟨m2, d, heq2, hf, hp, ha, heq⟩ | ⟨m2, heq2, hp, heq⟩ | ⟨m2, heq2, hp, ha, heq⟩ <;>
    rw [heq] <;> try exact h
  · rw [heq2] at hrf; simp [Event.isRunFinishedEv] at hrf
  · -- textStart-buffer: pending grows
    rcases h with h | h
    · exact Or.inl (List.mem_append.mpr (Or.inl h))
    · exact Or.inr h
  · -- content-pending: m2 moves from pending to active
    by_cases hm : m = m2
    · exact Or.inr (List.mem_append.mpr (Or.inr (by simp [hm])))
    · rcases h with h | h
      · exact Or.inl (mem_removeFirst_of_ne m2 m s.pendingStartIds h hm)
      · exact Or.inr (List.mem_append.mpr (Or.inl h))
  · -- textEnd-pending: only m2 ≠ m is removed
    have hne : m ≠ m2 := by
      intro hcon
      exact he (by rw [heq2, hcon])
    rcases h with h | h
    · exact Or.inl (mem_removeFirst_of_ne m2 m s.pendingStartIds h hne)
    · exact Or.inr h
  · -- textEnd-active: only m2 ≠ m is removed
    have hne : m ≠ m2 := by
      intro hcon
      exact he (by rw [heq2, hcon])
    rcases h with h | h
    · exact Or.inl h
    · exact Or.inr (mem_removeFirst_of_ne m2 m s.activeTextIds h hne)

/-- Processing a TextMessageStart while the command flag is off leaves the
message buffered or active. -/
theorem step_textStart_union (m : String) (h : s.commandToolCalled = false) :
    m ∈ (step parse s (.textStart m)).1.pendingStartIds ∨
    m ∈ (step parse s (.textStart m)).1.activeTextIds := by
  by_cases h2 : m ∈ s.pendingStartIds ∨ m ∈ s.activeTextIds
  · rw [step_textStart_dup parse s m h h2]
    exact h2
  · push_neg at h2
    rw [step_textStart_buffer parse s m h h2.1 h2.2]
    exact Or.inl (by simp)

/-- Processing a TextMessageContent for a buffered-or-active message while
the command flag is off makes it active. -/
theorem step_textContent_activates (m d : String) (h : s.commandToolCalled = false)
    (h2 : m ∈ s.pendingStartIds ∨ m ∈ s.activeTextIds) :
    m ∈ (step parse s (.textContent m d)).1.activeTextIds := by
  by_cases hp : m ∈ s.pendingStartIds
  · rw [step_textContent_pending parse s m d h hp]
    simp
  · have ha : m ∈ s.activeTextIds := by
      rcases h2 with h2 | h2
      · exact absurd h2 hp
      · exact h2
    rw [step_textContent_active parse s m d h hp ha]
    exact ha

/-- Once the command flag is set, the pending buffer never grows. -/
theorem step_pending_nogrow (e : Event) (h : s.commandToolCalled = true)
    (m : String) (hm : m ∈ (step parse s e).1.pendingStartIds) :
    m ∈ s.pendingStartIds := by
  rcases step_branches parse s e with
      ⟨snap, heq2, heq⟩ | ⟨t, r, heq2, heq⟩ | ⟨t, r, heq2, heq⟩ | heq |
      ⟨i, n, heq2, hn, heq⟩ | ⟨i, d, buf, heq2, hi, hc, heq⟩ |
      ⟨i, ex, tail, heq2, hi, hc, heq, htail⟩ |
      ⟨i, c, ex, flag, tail, heq2, hi, heq, htail, hmono, hstable⟩ |
      ⟨m2, heq2, hf, hp, ha, heq⟩ | ⟨m2, d, heq2, hf, hp, heq⟩ |
      ⟨m2, d, heq2, hf, hp, ha, heq⟩ | ⟨m2, heq2, hp, heq⟩ | ⟨m2, heq2, hp, ha, heq⟩ <;>
    rw [heq] at hm <;> try exact hm
  · simp at hm
  · rw [h] at hf; exact absurd hf (by simp)
  · rw [h] at hf; exact absurd hf (by simp)
  · exact mem_removeFirst_imp m2 m s.pendingStartIds hm

/-- Once the command flag is set, no TextMessageStart or Content is emitted. -/
theorem step_out_flagged (e : Event) (h : s.commandToolCalled = true)
    (x : Event) (hx : x ∈ (step parse s e).2) :
    x.isTextStartOrContent = false := by
  rcases step_branches parse s e with
      ⟨snap, he, heq⟩ | ⟨t, r, he, heq⟩ | ⟨t, r, he, heq⟩ | heq |
      ⟨i, n, he, hn, heq⟩ | ⟨i, d, buf, he, hi, hc, heq⟩ |
      ⟨i, ex, tail, he, hi, hc, heq, htail⟩ |
      ⟨i, c, ex, flag, tail, he, hi, heq, htail, hmono, hstable⟩ |
      ⟨m, he, hf, hp, ha, heq⟩ | ⟨m, d, he, hf, hp, heq⟩ |
      ⟨m, d, he, hf, hp, ha, heq⟩ | ⟨m, he, hp, heq⟩ | ⟨m, he, hp, ha, heq⟩ <;>
    rw [heq] at hx <;>
    simp only [List.mem_append, List.mem_map, List.mem_cons,
      List.not_mem_nil, or_false, false_or] at hx
  · subst hx; subst he; rfl
  · rcases hx with ⟨m, hm, hxe⟩ | hx | hx
    · rw [← hxe]; rfl
    · subst hx; rfl
    · subst hx; subst he; rfl
  · subst hx; subst he; rfl
  · subst hx; subst he; rfl
  · rcases hx with hx | hx
    · subst hx; subst he; rfl
    · rcases htail with ht | ⟨d2, ht⟩
      · rw [ht] at hx; simp at hx
      · rw [ht] at hx
        simp only [List.mem_cons, List.not_mem_nil, or_false] at hx
        subst hx; rfl
  · rcases hx with hx | hx
    · subst hx; subst he; rfl
    · rcases htail with ht | ⟨d2, ht⟩
      · rw [ht] at hx; simp at hx
      · rw [ht] at hx
        simp only [List.mem_cons, List.not_mem_nil, or_false] at hx
        subst hx; rfl
  · rw [h] at hf; exact absurd hf (by simp)
  · rw [h] at hf; exact absurd hf (by simp)
  · subst hx; subst he; rfl

/-- A RunFinished event downstream can only come from a RunFinished event
upstream. -/
theorem step_runFinished_source (e : Event) (x : Event)
    (hx : x ∈ (step parse s e).2) (hrf : x.isRunFinishedEv = true) :
    e.isRunFinishedEv = true := by
  rcases step_out_mem parse s e x hx with
      hx1 | ⟨d, hx1⟩ | ⟨m, d, he, hx1, hf, hp⟩ | ⟨m, t, r, he, hx1, hm⟩
  · subst hx1; exact hrf
  · subst hx1; simp [Event.isRunFinishedEv] at hrf
  · subst hx1; simp [Event.isRunFinishedEv] at hrf
  · subst hx1; simp [Event.isRunFinishedEv] at hrf

/-- A TextMessageStart never yields output by itself (it is buffered or
dropped in every branch). -/
theorem step_textStart_out (m : String) :
    (step parse s (.textStart m)).2 = [] := by
  by_cases h : s.commandToolCalled = true
  · rw [step_textStart_flagged parse s m h]
  · replace h : s.commandToolCalled = false := by
      cases hc : s.commandToolCalled
      · rfl
      · exact absurd hc h
    by_cases h2 : m ∈ s.pendingStartIds ∨ m ∈ s.activeTextIds
    · rw [step_textStart_dup parse s m h h2]
    · push_neg at h2
      rw [step_textStart_buffer parse s m h h2.1 h2.2]

/-- A TextMessageEnd yields output only when its message is active. -/
theorem step_textEnd_out (m : String) (h : m ∉ s.activeTextIds) :
    (step parse s (.textEnd m)).2 = [] := by
  by_cases hp : m ∈ s.pendingStartIds
  · rw [step_textEnd_pending parse s m hp]
  · rw [step_textEnd_unknown parse s m hp h]

end StepFacts

/-! Claim C4: phantom text messages are fully suppressed. -/

/-- Run-level invariant for C4: a message that never receives content and
is not active stays inactive and never appears in the output. -/
theorem runEvents_no_text_of_no_content (parse : String → Option Value)
    (m : String) (l : List Event) :
    ∀ s : RunState, m ∉ s.activeTextIds →
      (∀ e ∈ l, e.isTextContentFor m = false) →
      (∀ x ∈ (runEvents parse s l).2, x.isTextFor m = false) ∧
        m ∉ (runEvents parse s l).1.activeTextIds := by
  induction l with
  | nil =>
      intro s hs _
      refine ⟨?_, hs⟩
      intro x hx
      simp [runEvents] at hx
  | cons e rest ih =>
      intro s hs hl
      have hle : e.isTextContentFor m = false := hl e (List.mem_cons_self e rest)
      have hlr : ∀ e2 ∈ rest, e2.isTextContentFor m = false :=
        fun e2 he2 => hl e2 (List.mem_cons_of_mem e he2)
      have hne : ∀ d, e ≠ .textContent m d := by
        intro d hc
        rw [hc] at hle
        simp [Event.isTextContentFor] at hle
      have hs' : m ∉ (step parse s e).1.activeTextIds :=
        step_active_not_mem parse s e m hs hne
      obtain ⟨ihout, ihact⟩ := ih (step parse s e).1 hs' hlr
      refine ⟨?_, by rwa [runEvents_cons]⟩
      intro x hx
      rw [runEvents_cons] at hx
      simp only [List.mem_append] at hx
      rcases hx with hx | hx
      · -- output of this step
        rcases step_out_mem parse s e x hx with
            hx1 | ⟨d, hx1⟩ | ⟨m2, d, he, hx1, hf, hp⟩ | ⟨m2, t, r, he, hx1, hm⟩
        · subst hx1
          cases x with
          | textStart m2 =>
              rw [step_textStart_out parse s m2] at hx
              simp at hx
          | textContent m2 d =>
              simp only [Event.isTextFor]
              simp only [Event.isTextContentFor] at hle
              exact hle
          | textEnd m2 =>
              by_cases hm2 : m2 = m
              · subst hm2
                rw [step_textEnd_out parse s m2 hs] at hx
                simp at hx
              · simp [Event.isTextFor, hm2]
          | _ => simp [Event.isTextFor]
        · subst hx1; rfl
        · subst hx1
          have hm2 : m2 ≠ m := by
            intro hc
            subst hc
            rw [he] at hle
            simp [Event.isTextContentFor] at hle
          simp [Event.isTextFor, hm2]
        · subst hx1
          have hm2 : m2 ≠ m := fun hc => hs (hc ▸ hm)
          simp [Event.isTextFor, hm2]
      · exact ihout x hx

/-- Claim C4 (confirmed).  For every input sequence of one turn in which
message `m` receives no TextMessageContent delta at all — in particular the
phantom patterns TextStart(m) directly followed by TextEnd(m), or a
TextStart(m) never followed by a delta before RunFinished — the
reconciled output stream contains no TextMessageStart, TextMessageContent
or TextMessageEnd event for `m`: the phantom message is fully suppressed. -/
theorem C4_phantom_text_suppressed (parse : String → Option Value) (fs : Dict)
    (evs : List Event) (m : String)
    (hstart : Event.textStart m ∈ evs)
    (hnodelta : evs.all (fun e => !e.isTextContentFor m) = true) :
    (runEvents parse (initState fs) evs).2.all (fun x => !x.isTextFor m) = true := by
  rw [List.all_eq_true]
  intro x hx
  rw [Bool.not_eq_true']
  have hnd : ∀ e ∈ evs, e.isTextContentFor m = false := by
    intro e he
    have := List.all_eq_true.mp hnodelta e he
    rwa [Bool.not_eq_true'] at this
  have hinit : m ∉ (initState fs).activeTextIds := by simp [initState]
  exact (runEvents_no_text_of_no_content parse m evs (initState fs) hinit hnd).1 x hx

/-- Witness for C4 at the concrete phantom input
[TextStart m, TextEnd m, RunFinished]. -/
theorem C4_phantom_text_suppressed_witness :
    (runEvents (fun _ => none) (initState [])
        [.textStart "m", .textEnd "m", .runFinished "T" "R"]).2.all
      (fun x => !x.isTextFor "m") = true :=
  C4_phantom_text_suppressed (fun _ => none) []
    [.textStart "m", .textEnd "m", .runFinished "T" "R"] "m"
    (List.mem_cons_self _ _) (by decide)

/-! Claim C6: dashboard command tools suppress all later text. -/

/-- Run-level invariant for C6: once the command flag is set, no text
Start or Content is ever emitted again and the pending buffer never grows. -/
theorem runEvents_flagged (parse : String → Option Value) (l : List Event) :
    ∀ s : RunState, s.commandToolCalled = true →
      (∀ x ∈ (runEvents parse s l).2, x.isTextStartOrContent = false) ∧
      (runEvents parse s l).1.commandToolCalled = true ∧
      (∀ m ∈ (runEvents parse s l).1.pendingStartIds, m ∈ s.pendingStartIds) := by
  induction l with
  | nil =>
      intro s hs
      exact ⟨fun x hx => by simp [runEvents] at hx, hs, fun m hm => hm⟩
  | cons e rest ih =>
      intro s hs
      have hs' : (step parse s e).1.commandToolCalled = true :=
        step_flag_mono parse s e hs
      obtain ⟨ihout, ihflag, ihpend⟩ := ih (step parse s e).1 hs'
      refine ⟨?_, by rwa [runEvents_cons], ?_⟩
      · intro x hx
        rw [runEvents_cons] at hx
        simp only [List.mem_append] at hx
        rcases hx with hx | hx
        · exact step_out_flagged parse s e hs x hx
        · exact ihout x hx
      · intro m hm
        rw [runEvents_cons] at hm
        exact step_pending_nogrow parse s e hs m (ihpend m hm)

/-- Claim C6 (confirmed).  Once a ToolCallStart for a tool of the
"dashboard command" category (fetch_flights, clear_filter) has been
processed (i.e. accepted: its toolCallId was not a duplicate), every
TextMessageStart/TextMessageContent later in the turn is suppressed: the
remaining output contains no such event, and nothing is even buffered (the
pending-start buffer never grows). -/
theorem C6_command_suppression (parse : String → Option Value) (fs : Dict)
    (pre post : List Event) (id name : String)
    (hname : name ∈ COMMAND_TOOLS)
    (hfresh : id ∉ (runEvents parse (initState fs) pre).1.seen) :
    ((runEvents parse
        (runEvents parse (initState fs) (pre ++ [.toolCallStart id name])).1
        post).2.all (fun x => !x.isTextStartOrContent) = true) ∧
    (∀ m ∈ (runEvents parse
        (runEvents parse (initState fs) (pre ++ [.toolCallStart id name])).1
        post).1.pendingStartIds,
      m ∈ (runEvents parse (initState fs) (pre ++ [.toolCallStart id name])).1.pendingStartIds) := by
  set spre := (runEvents parse (initState fs) pre).1 with hspre
  have hs1 : (runEvents parse (initState fs) (pre ++ [.toolCallStart id name])).1 =
      (step parse spre (.toolCallStart id name)).1 := by
    rw [runEvents_append]
    simp [runEvents_cons]
  have hflag : (step parse spre (.toolCallStart id name)).1.commandToolCalled = true := by
    rw [step_start_new parse spre id name hfresh]
    simp [hname]
  obtain ⟨hout, _, hpend⟩ :=
    runEvents_flagged parse post (step parse spre (.toolCallStart id name)).1 hflag
  constructor
  · rw [List.all_eq_true]
    intro x hx
    rw [Bool.not_eq_true']
    rw [hs1] at hx
    exact hout x hx
  · intro m hm
    rw [hs1] at hm ⊢
    exact hpend m hm

/-- Witness for C6: after ToolCallStart(fetch_flights) the following
TextStart/TextContent produce no output. -/
theorem C6_command_suppression_witness :
    ((runEvents (fun _ => none)
        (runEvents (fun _ => none) (initState []) ([] ++ [.toolCallStart "t" "fetch_flights"])).1
        [.textStart "m", .textContent "m" "x"]).2.all
      (fun x => !x.isTextStartOrContent) = true) ∧
    (∀ m ∈ (runEvents (fun _ => none)
        (runEvents (fun _ => none) (initState []) ([] ++ [.toolCallStart "t" "fetch_flights"])).1
        [.textStart "m", .textContent "m" "x"]).1.pendingStartIds,
      m ∈ (runEvents (fun _ => none) (initState [])
            ([] ++ [.toolCallStart "t" "fetch_flights"])).1.pendingStartIds) :=
  C6_command_suppression (fun _ => none) [] [] [.textStart "m", .textContent "m" "x"]
    "t" "fetch_flights" (by decide) (by decide)

/-! Claim C1: tool-call lifecycle deduplication. -/

/-- Generic step fact: if a Boolean event class is false on the input
event, on snapshots and on synthetic text events, no output of the step
satisfies it. -/
theorem step_count_zero (parse : String → Option Value) (s : RunState) (e : Event)
    (P : Event → Bool) (hPe : P e = false)
    (hPs : ∀ d, P (.stateSnapshot d) = false)
    (hPts : ∀ m, P (.textStart m) = false)
    (hPte : ∀ m, P (.textEnd m) = false) :
    (step parse s e).2.countP P = 0 := by
  rw [List.countP_eq_zero]
  intro x hx
  rcases step_out_mem parse s e x hx with
      hx1 | ⟨d, hx1⟩ | ⟨m, d, he, hx1, hf, hp⟩ | ⟨m, t, r, he, hx1, hm⟩
  · rw [hx1]; simp [hPe]
  · rw [hx1]; simp [hPs d]
  · rw [hx1]; simp [hPts m]
  · rw [hx1]; simp [hPte m]

/-- Part 1 invariant: from any state, the number of ToolCallStart events
for `id` in the output is one if `id` is new and some start for it arrives,
and zero otherwise. -/
theorem runEvents_start_count (parse : String → Option Value) (id : String)
    (l : List Event) :
    ∀ s : RunState,
      (runEvents parse s l).2.countP (Event.isToolStartFor id) =
        if id ∈ s.seen then 0
        else if l.any (Event.isToolStartFor id) then 1 else 0 := by
  induction l with
  | nil =>
      intro s
      simp [runEvents]
  | cons e rest ih =>
      intro s
      rw [runEvents_cons, List.countP_append]
      by_cases hPe : Event.isToolStartFor id e = true
      · -- e is a ToolCallStart for id
        obtain ⟨n, he⟩ : ∃ n, e = .toolCallStart id n := by
          cases e <;> simp [Event.isToolStartFor] at hPe
          case toolCallStart i n => exact ⟨n, by rw [hPe]⟩
        subst he
        by_cases hseen : id ∈ s.seen
        · rw [step_start_dup parse s id n hseen]
          simp only [List.countP_nil, ih, Nat.zero_add]
          rw [if_pos hseen, if_pos hseen]
        · rw [step_start_new parse s id n hseen, ih]
          simp [List.countP_cons, Event.isToolStartFor, hseen]
      · rw [Bool.not_eq_true] at hPe
        have hz : (step parse s e).2.countP (Event.isToolStartFor id) = 0 :=
          step_count_zero parse s e _ hPe (fun d => rfl) (fun m => rfl) (fun m => rfl)
        rw [hz, ih]
        have hseen : id ∈ (step parse s e).1.seen ↔ id ∈ s.seen := by
          rcases step_seen parse s e with h1 | ⟨i, n, he, hn, h1⟩
          · rw [h1]
          · have hne : i ≠ id := by
              intro hc
              rw [he, hc] at hPe
              simp [Event.isToolStartFor] at hPe
            rw [h1]
            have hne2 : id ≠ i := fun hc => hne hc.symm
            simp [hne2]
        have hany : (e :: rest).any (Event.isToolStartFor id) =
            rest.any (Event.isToolStartFor id) := by
          simp [hPe]
        by_cases hs2 : id ∈ s.seen
        · rw [if_pos hs2, if_pos (hseen.mpr hs2)]
        · rw [if_neg hs2, if_neg (fun hc => hs2 (hseen.mp hc)), hany]
          simp

/-- Step fact for part 2: with `id` unseen, no ToolCallArgs/End/Result for
`id` is emitted by one step. -/
theorem step_followup_zero (parse : String → Option Value) (s : RunState)
    (e : Event) (id : String) (h : id ∉ s.seen) :
    (step parse s e).2.countP (Event.isToolFollowUpFor id) = 0 := by
  rw [List.countP_eq_zero]
  intro x hx
  rcases step_branches parse s e with
      ⟨snap, he, heq⟩ | ⟨t, r, he, heq⟩ | ⟨t, r, he, heq⟩ | heq |
      ⟨i, n, he, hn, heq⟩ | ⟨i, d, buf, he, hi, hc, heq⟩ |
      ⟨i, ex, tail, he, hi, hc, heq, htail⟩ |
      ⟨i, c, ex, flag, tail, he, hi, heq, htail, hmono, hstable⟩ |
      ⟨m, he, hf, hp, ha, heq⟩ | ⟨m, d, he, hf, hp, heq⟩ |
      ⟨m, d, he, hf, hp, ha, heq⟩ | ⟨m, he, hp, heq⟩ | ⟨m, he, hp, ha, heq⟩ <;>
    rw [heq] at hx <;>
    simp only [List.mem_append, List.mem_map, List.mem_cons,
      List.not_mem_nil, or_false, false_or] at hx
  · subst hx; subst he; simp [Event.isToolFollowUpFor, Event.isToolArgsFor,
      Event.isToolEndFor, Event.isToolResultFor]
  · rcases hx with ⟨m, hm, hxe⟩ | hx | hx
    · rw [← hxe]; simp [Event.isToolFollowUpFor, Event.isToolArgsFor,
        Event.isToolEndFor, Event.isToolResultFor]
    · subst hx; simp [Event.isToolFollowUpFor, Event.isToolArgsFor,
        Event.isToolEndFor, Event.isToolResultFor]
    · subst hx; subst he; simp [Event.isToolFollowUpFor, Event.isToolArgsFor,
        Event.isToolEndFor, Event.isToolResultFor]
  · subst hx; subst he; simp [Event.isToolFollowUpFor, Event.isToolArgsFor,
      Event.isToolEndFor, Event.isToolResultFor]
  · -- accepted ToolCallArgs: its id is seen, hence differs from `id`
    subst hx; subst he
    have hne : i ≠ id := fun hc => h (hc ▸ hi)
    simp [Event.isToolFollowUpFor, Event.isToolArgsFor,
      Event.isToolEndFor, Event.isToolResultFor, hne]
  · rcases hx with hx | hx
    · subst hx; subst he
      have hne : i ≠ id := fun hc => h (hc ▸ hi)
      simp [Event.isToolFollowUpFor, Event.isToolArgsFor,
        Event.isToolEndFor, Event.isToolResultFor, hne]
    · rcases htail with ht | ⟨d2, ht⟩
      · rw [ht] at hx; simp at hx
      · rw [ht] at hx
        simp only [List.mem_cons, List.not_mem_nil, or_false] at hx
        subst hx
        simp [Event.isToolFollowUpFor, Event.isToolArgsFor,
          Event.isToolEndFor, Event.isToolResultFor]
  · rcases hx with hx | hx
    · subst hx; subst he
      have hne : i ≠ id := fun hc => h (hc ▸ hi)
      simp [Event.isToolFollowUpFor, Event.isToolArgsFor,
        Event.isToolEndFor, Event.isToolResultFor, hne]
    · rcases htail with ht | ⟨d2, ht⟩
      · rw [ht] at hx; simp at hx
      · rw [ht] at hx
        simp only [List.mem_cons, List.not_mem_nil, or_false] at hx
        subst hx
        simp [Event.isToolFollowUpFor, Event.isToolArgsFor,
          Event.isToolEndFor, Event.isToolResultFor]
  · rcases hx with hx | hx <;> subst hx <;>
      simp [he, Event.isToolFollowUpFor, Event.isToolArgsFor,
        Event.isToolEndFor, Event.isToolResultFor]
  · subst hx; subst he
    simp [Event.isToolFollowUpFor, Event.isToolArgsFor,
      Event.isToolEndFor, Event.isToolResultFor]
  · subst hx; subst he
    simp [Event.isToolFollowUpFor, Event.isToolArgsFor,
      Event.isToolEndFor, Event.isToolResultFor]

/-- Part 2 invariant: if `id` was never started, no follow-up event for it
ever appears downstream and it stays unseen. -/
theorem runEvents_followup_zero (parse : String → Option Value) (id : String)
    (l : List Event) :
    ∀ s : RunState, id ∉ s.seen →
      (∀ e ∈ l, e.isToolStartFor id = false) →
      (runEvents parse s l).2.countP (Event.isToolFollowUpFor id) = 0 ∧
        id ∉ (runEvents parse s l).1.seen := by
  induction l with
  | nil =>
      intro s hs _
      exact ⟨by simp [runEvents], hs⟩
  | cons e rest ih =>
      intro s hs hl
      have hs' : id ∉ (step parse s e).1.seen := by
        rcases step_seen parse s e with h1 | ⟨i, n, he, hn, h1⟩
        · rw [h1]; exact hs
        · have hne : i ≠ id := by
            intro hc
            have := hl e (List.mem_cons_self e rest)
            rw [he, hc] at this
            simp [Event.isToolStartFor] at this
          rw [h1]
          simp only [List.mem_append, List.mem_singleton]
          intro hc
          rcases hc with hc | hc
          · exact hs hc
          · exact hne hc.symm
      obtain ⟨ihc, ihs⟩ := ih (step parse s e).1 hs'
        (fun e2 he2 => hl e2 (List.mem_cons_of_mem e he2))
      refine ⟨?_, by rwa [runEvents_cons]⟩
      rw [runEvents_cons, List.countP_append, ihc,
        step_followup_zero parse s e id hs]

/-- Scan checker for part 3: walking the list, once a ToolCallEnd for `id`
has been passed, no further ToolCallArgs or ToolCallEnd for `id` may occur. -/
def checkNoMoreAfterEnd (id : String) : Bool → List Event → Bool
  | _, [] => true
  | ended, e :: rest =>
      if ended && (e.isToolArgsFor id || e.isToolEndFor id) then false
      else checkNoMoreAfterEnd id (ended || e.isToolEndFor id) rest

theorem checkNoMoreAfterEnd_append (id : String) (b : Bool) (x y : List Event) :
    checkNoMoreAfterEnd id b (x ++ y) =
      (checkNoMoreAfterEnd id b x &&
       checkNoMoreAfterEnd id (b || x.any (Event.isToolEndFor id)) y) := by
  induction x generalizing b with
  | nil => simp [checkNoMoreAfterEnd]
  | cons e x' ih =>
      simp only [List.cons_append, checkNoMoreAfterEnd]
      by_cases hc : (b && (e.isToolArgsFor id || e.isToolEndFor id)) = true
      · rw [if_pos hc, if_pos hc]
        simp
      · rw [Bool.not_eq_true] at hc
        rw [if_neg (by simp [hc]), if_neg (by simp [hc])]
        simp only [List.append_eq]
        rw [ih]
        simp [List.any_cons, Bool.or_assoc]

/-- A list whose elements are no ToolCallArgs/End for `id` passes the
checker from any flag and contains no ToolCallEnd for `id`. -/
theorem check_benign (id : String) (x : List Event)
    (hx : ∀ e ∈ x, (Event.isToolArgsFor id e || Event.isToolEndFor id e) = false) :
    ∀ b, checkNoMoreAfterEnd id b x = true ∧
      x.any (Event.isToolEndFor id) = false := by
  induction x with
  | nil => intro b; simp [checkNoMoreAfterEnd]
  | cons e x2 ih =>
      intro b
      have hpe := hx e (List.mem_cons_self e x2)
      have hae : Event.isToolArgsFor id e = false := by
        rcases Bool.or_eq_false_iff.mp hpe with ⟨h1, _⟩
        exact h1
      have hee : Event.isToolEndFor id e = false := by
        rcases Bool.or_eq_false_iff.mp hpe with ⟨_, h2⟩
        exact h2
      have ih2 := ih (fun e2 he2 => hx e2 (List.mem_cons_of_mem e he2)) b
      constructor
      · simp only [checkNoMoreAfterEnd, hae, hee, Bool.or_false, Bool.and_false,
          if_neg (by simp : ¬ ((b && false) = true))]
        exact ih2.1
      · simp [List.any_cons, hee, ih2.2]

/-- Step fact for part 3: each step preserves the checker, and the checker
flag after the step's output equals membership of `id` in `completed`. -/
theorem step_check (parse : String → Option Value) (s : RunState) (e : Event)
    (id : String) (b : Bool) (hb : b = decide (id ∈ s.completed)) :
    checkNoMoreAfterEnd id b (step parse s e).2 = true ∧
    (b || (step parse s e).2.any (Event.isToolEndFor id)) =
      decide (id ∈ (step parse s e).1.completed) := by
  rcases step_branches parse s e with
      ⟨snap, he, heq⟩ | ⟨t, r, he, heq⟩ | ⟨t, r, he, heq⟩ | heq |
      ⟨i, n, he, hn, heq⟩ | ⟨i, d, buf, he, hi, hc, heq⟩ |
      ⟨i, ex, tail, he, hi, hc, heq, htail⟩ |
      ⟨i, c, ex, flag, tail, he, hi, heq, htail, hmono, hstable⟩ |
      ⟨m, he, hf, hp, ha, heq⟩ | ⟨m, d, he, hf, hp, heq⟩ |
      ⟨m, d, he, hf, hp, ha, heq⟩ | ⟨m, he, hp, heq⟩ | ⟨m, he, hp, ha, heq⟩ <;>
    rw [heq] <;> simp only
  -- stateSnapshot: empty output, state untouched
  · exact ⟨by simp [checkNoMoreAfterEnd], by simpa using hb⟩
  -- runStarted: benign singleton
  · subst he
    obtain ⟨h1, h2⟩ := check_benign id [Event.runStarted t r]
      (by intro e2 he2; simp only [List.mem_singleton] at he2; rw [he2]; rfl) b
    exact ⟨h1, by rw [h2]; simpa using hb⟩
  -- runFinished: synthetic text ends, snapshot and the event are benign
  · subst he
    obtain ⟨h1, h2⟩ := check_benign id
      (s.activeTextIds.map Event.textEnd ++
        [Event.stateSnapshot (mergeLayers s.lastInnerState s.extractedState s.frontendState),
         Event.runFinished t r])
      (by
        intro e2 he2
        simp only [List.mem_append, List.mem_map, List.mem_cons,
          List.not_mem_nil, or_false] at he2
        rcases he2 with ⟨a, ha, hae⟩ | he2 | he2
        · rw [← hae]; rfl
        · rw [he2]; rfl
        · rw [he2]; rfl) b
    exact ⟨h1, by rw [h2]; simpa using hb⟩
  -- dropped event: empty output, state untouched
  · exact ⟨by simp [checkNoMoreAfterEnd], by simpa using hb⟩
  -- accepted ToolCallStart: benign singleton
  · subst he
    obtain ⟨h1, h2⟩ := check_benign id [Event.toolCallStart i n]
      (by intro e2 he2; simp only [List.mem_singleton] at he2; rw [he2]; rfl) b
    exact ⟨h1, by rw [h2]; simpa using hb⟩
  -- accepted ToolCallArgs
  · subst he
    by_cases hii : i = id
    · subst hii
      have hb0 : b = false := by rw [hb]; simp [hc]
      constructor
      · simp [checkNoMoreAfterEnd, hb0, Event.isToolEndFor]
      · rw [hb0]
        simp [Event.isToolEndFor, hc]
    · obtain ⟨h1, h2⟩ := check_benign id [Event.toolCallArgs i d]
        (by
          intro e2 he2; simp only [List.mem_singleton] at he2; rw [he2]
          simp [Event.isToolArgsFor, Event.isToolEndFor, hii]) b
      exact ⟨h1, by rw [h2]; simpa using hb⟩
  -- accepted ToolCallEnd
  · subst he
    have hbenign_tail : ∀ e2 ∈ tail, (Event.isToolArgsFor id e2 || Event.isToolEndFor id e2) = false := by
      intro e2 he2
      rcases htail with ht | ⟨d2, ht⟩
      · rw [ht] at he2; simp at he2
      · rw [ht] at he2; simp only [List.mem_singleton] at he2; rw [he2]; rfl
    by_cases hii : id = i
    · subst hii
      have hb0 : b = false := by rw [hb]; simp [hc]
      have hcomp : id ∈ (s.completed ++ [id]) := by simp
      constructor
      · have hrest := ((check_benign id tail hbenign_tail) true).1
        simp [checkNoMoreAfterEnd, hb0, Event.isToolEndFor, hrest]
      · simp [hb0, Event.isToolEndFor, List.any_cons, hcomp]
    · have hii2 : ¬ (i = id) := fun hc2 => hii hc2.symm
      have hcomp : (id ∈ (s.completed ++ [i])) ↔ id ∈ s.completed := by
        simp only [List.mem_append, List.mem_singleton]
        constructor
        · intro hc2
          rcases hc2 with hc2 | hc2
          · exact hc2
          · exact absurd hc2 hii
        · exact Or.inl
      obtain ⟨h1, h2⟩ := check_benign id (Event.toolCallEnd i :: tail)
        (by
          intro e2 he2
          rcases List.mem_cons.mp he2 with he2 | he2
          · rw [he2]; simp [Event.isToolArgsFor, Event.isToolEndFor, hii2]
          · exact hbenign_tail e2 he2) b
      refine ⟨h1, ?_⟩
      rw [h2, hb]
      simp [hcomp]
  -- known ToolCallResult: benign
  · subst he
    obtain ⟨h1, h2⟩ := check_benign id (Event.toolCallResult i c :: tail)
      (by
        intro e2 he2
        rcases List.mem_cons.mp he2 with he2 | he2
        · rw [he2]; rfl
        · rcases htail with ht | ⟨d2, ht⟩
          · rw [ht] at he2; simp at he2
          · rw [ht] at he2; simp only [List.mem_singleton] at he2; rw [he2]; rfl) b
    exact ⟨h1, by rw [h2]; simpa using hb⟩
  -- text branches: benign or empty
  · exact ⟨by simp [checkNoMoreAfterEnd], by simpa using hb⟩
  · subst he
    obtain ⟨h1, h2⟩ := check_benign id [Event.textStart m, Event.textContent m d]
      (by
        intro e2 he2
        rcases List.mem_cons.mp he2 with he2 | he2
        · rw [he2]; rfl
        · simp only [List.mem_singleton] at he2; rw [he2]; rfl) b
    exact ⟨h1, by rw [h2]; simpa using hb⟩
  · subst he
    obtain ⟨h1, h2⟩ := check_benign id [Event.textContent m d]
      (by intro e2 he2; simp only [List.mem_singleton] at he2; rw [he2]; rfl) b
    exact ⟨h1, by rw [h2]; simpa using hb⟩
  · exact ⟨by simp [checkNoMoreAfterEnd], by simpa using hb⟩
  · subst he
    obtain ⟨h1, h2⟩ := check_benign id [Event.textEnd m]
      (by intro e2 he2; simp only [List.mem_singleton] at he2; rw [he2]; rfl) b
    exact ⟨h1, by rw [h2]; simpa using hb⟩

/-- Part 3 invariant over a whole run. -/
theorem runEvents_check (parse : String → Option Value) (id : String)
    (l : List Event) :
    ∀ (s : RunState) (b : Bool), b = decide (id ∈ s.completed) →
      checkNoMoreAfterEnd id b (runEvents parse s l).2 = true := by
  induction l with
  | nil =>
      intro s b _
      simp [runEvents, checkNoMoreAfterEnd]
  | cons e rest ih =>
      intro s b hb
      rw [runEvents_cons, checkNoMoreAfterEnd_append]
      obtain ⟨h1, h2⟩ := step_check parse s e id b hb
      rw [h1, h2, ih (step parse s e).1 _ rfl]
      rfl

/-- Claim C1 (confirmed).  For every raw event sequence of one turn and
every toolCallId: (1) the output contains exactly one ToolCallStart for
that id when the input contains at least one, and none otherwise (later
duplicates are dropped); (2) every ToolCallArgs/ToolCallEnd/ToolCallResult
event for the id with no prior ToolCallStart for it in this turn is
dropped at its position — the step processing it emits nothing and leaves
the state unchanged, even when a ToolCallStart for the id arrives later;
(3) hence if the input contains no ToolCallStart for the id at all, no
follow-up event for it is ever emitted; (4) after the ToolCallEnd for the
id is emitted, no further ToolCallArgs or ToolCallEnd for it is ever
emitted (idempotent Started→Ended transition). -/
theorem C1_tool_call_dedup (parse : String → Option Value) (fs : Dict)
    (evs : List Event) (id : String) :
    ((runEvents parse (initState fs) evs).2.countP (Event.isToolStartFor id) =
      if evs.any (Event.isToolStartFor id) then 1 else 0) ∧
    (∀ pre f post, evs = pre ++ f :: post →
      Event.isToolFollowUpFor id f = true →
      pre.any (Event.isToolStartFor id) = false →
      step parse (runEvents parse (initState fs) pre).1 f =
        ((runEvents parse (initState fs) pre).1, [])) ∧
    (evs.any (Event.isToolStartFor id) = false →
      (runEvents parse (initState fs) evs).2.countP (Event.isToolFollowUpFor id) = 0) ∧
    checkNoMoreAfterEnd id false (runEvents parse (initState fs) evs).2 = true := by
  refine ⟨?_, ?_, ?_, ?_⟩
  · have h := runEvents_start_count parse id evs (initState fs)
    rwa [if_neg (by simp [initState])] at h
  · intro pre f post _ hf hpre
    have hnostart : ∀ e ∈ pre, e.isToolStartFor id = false := by
      intro e he
      exact Bool.not_eq_true _ ▸ (List.any_eq_false.mp hpre e he |> eq_false_of_ne_true)
    have hseen : id ∉ (runEvents parse (initState fs) pre).1.seen :=
      (runEvents_followup_zero parse id pre (initState fs)
        (by simp [initState]) hnostart).2
    cases f with
    | toolCallArgs i d =>
        have hi : i = id := by
          simpa [Event.isToolFollowUpFor, Event.isToolArgsFor,
            Event.isToolEndFor, Event.isToolResultFor] using hf
        subst hi
        exact step_args_unknown parse _ i d hseen
    | toolCallEnd i =>
        have hi : i = id := by
          simpa [Event.isToolFollowUpFor, Event.isToolArgsFor,
            Event.isToolEndFor, Event.isToolResultFor] using hf
        subst hi
        exact step_end_unknown parse _ i hseen
    | toolCallResult i c =>
        have hi : i = id := by
          simpa [Event.isToolFollowUpFor, Event.isToolArgsFor,
            Event.isToolEndFor, Event.isToolResultFor] using hf
        subst hi
        exact step_result_unknown parse _ i c hseen
    | runStarted t r =>
        simp [Event.isToolFollowUpFor, Event.isToolArgsFor,
          Event.isToolEndFor, Event.isToolResultFor] at hf
    | runFinished t r =>
        simp [Event.isToolFollowUpFor, Event.isToolArgsFor,
          Event.isToolEndFor, Event.isToolResultFor] at hf
    | textStart m =>
        simp [Event.isToolFollowUpFor, Event.isToolArgsFor,
          Event.isToolEndFor, Event.isToolResultFor] at hf
    | textContent m d =>
        simp [Event.isToolFollowUpFor, Event.isToolArgsFor,
          Event.isToolEndFor, Event.isToolResultFor] at hf
    | textEnd m =>
        simp [Event.isToolFollowUpFor, Event.isToolArgsFor,
          Event.isToolEndFor, Event.isToolResultFor] at hf
    | toolCallStart i n =>
        simp [Event.isToolFollowUpFor, Event.isToolArgsFor,
          Event.isToolEndFor, Event.isToolResultFor] at hf
    | stateSnapshot d =>
        simp [Event.isToolFollowUpFor, Event.isToolArgsFor,
          Event.isToolEndFor, Event.isToolResultFor] at hf
  · intro hany
    have hl : ∀ e ∈ evs, e.isToolStartFor id = false := by
      intro e he
      exact Bool.not_eq_true _ ▸ (List.any_eq_false.mp hany e he |> eq_false_of_ne_true)
    exact (runEvents_followup_zero parse id evs (initState fs) (by simp [initState]) hl).1
  · exact runEvents_check parse id evs (initState fs) false (by simp [initState])

/-- Witness for C1 on a concrete stream where an Args and a Result for
"t2" arrive before the ToolCallStart of "t2" (both dropped), the Args
after the End are dropped, and "t9" is a never-started id. -/
theorem C1_tool_call_dedup_witness :
    ((runEvents (fun _ => none) (initState [])
        [.toolCallArgs "t2" "early", .toolCallResult "t2" .null,
         .toolCallStart "t2" "n", .toolCallArgs "t2" "a", .toolCallEnd "t2",
         .toolCallArgs "t2" "late", .toolCallResult "t9" .null,
         .runFinished "T" "R"]).2.countP (Event.isToolStartFor "t2") =
      if ([Event.toolCallArgs "t2" "early", .toolCallResult "t2" .null,
         .toolCallStart "t2" "n", .toolCallArgs "t2" "a", .toolCallEnd "t2",
         .toolCallArgs "t2" "late", .toolCallResult "t9" .null,
         .runFinished "T" "R"].any (Event.isToolStartFor "t2")) then 1 else 0) ∧
    (step (fun _ => none) (initState []) (.toolCallArgs "t2" "early") =
      (initState [], [])) ∧
    ((runEvents (fun _ => none) (initState [])
        [.toolCallArgs "t2" "early", .toolCallResult "t2" .null,
         .toolCallStart "t2" "n", .toolCallArgs "t2" "a", .toolCallEnd "t2",
         .toolCallArgs "t2" "late", .toolCallResult "t9" .null,
         .runFinished "T" "R"]).2.countP (Event.isToolFollowUpFor "t9") = 0) ∧
    checkNoMoreAfterEnd "t2" false
      (runEvents (fun _ => none) (initState [])
        [.toolCallArgs "t2" "early", .toolCallResult "t2" .null,
         .toolCallStart "t2" "n", .toolCallArgs "t2" "a", .toolCallEnd "t2",
         .toolCallArgs "t2" "late", .toolCallResult "t9" .null,
         .runFinished "T" "R"]).2 = true := by
  have h2 := C1_tool_call_dedup (fun _ => none) []
    [.toolCallArgs "t2" "early", .toolCallResult "t2" .null,
     .toolCallStart "t2" "n", .toolCallArgs "t2" "a", .toolCallEnd "t2",
     .toolCallArgs "t2" "late", .toolCallResult "t9" .null,
     .runFinished "T" "R"] "t2"
  have h9 := C1_tool_call_dedup (fun _ => none) []
    [.toolCallArgs "t2" "early", .toolCallResult "t2" .null,
     .toolCallStart "t2" "n", .toolCallArgs "t2" "a", .toolCallEnd "t2",
     .toolCallArgs "t2" "late", .toolCallResult "t9" .null,
     .runFinished "T" "R"] "t9"
  refine ⟨h2.1, ?_, h9.2.2.1 (by decide), h2.2.2.2⟩
  exact h2.2.1 [] (.toolCallArgs "t2" "early")
    [.toolCallResult "t2" .null, .toolCallStart "t2" "n", .toolCallArgs "t2" "a",
     .toolCallEnd "t2", .toolCallArgs "t2" "late", .toolCallResult "t9" .null,
     .runFinished "T" "R"] rfl (by decide) (by decide)

/-! Run-level preservation lemmas used by claim C5. -/

/-- The command flag stays off while no triggering event arrives. -/
theorem runEvents_flag_stays_false (parse : String → Option Value) (l : List Event) :
    ∀ s : RunState, s.commandToolCalled = false →
      (∀ e ∈ l, triggersCommand parse e = false) →
      (runEvents parse s l).1.commandToolCalled = false := by
  induction l with
  | nil => intro s hs _; simpa [runEvents]
  | cons e rest ih =>
      intro s hs hl
      rw [runEvents_cons]
      refine ih (step parse s e).1 ?_ (fun e2 he2 => hl e2 (List.mem_cons_of_mem e he2))
      rw [step_flag_stable parse s e (hl e (List.mem_cons_self e rest))]
      exact hs

/-- A buffered-or-active message stays buffered-or-active through events
that are not its TextMessageEnd and not RunFinished. -/
theorem runEvents_union_keep (parse : String → Option Value) (m : String)
    (l : List Event) :
    ∀ s : RunState, (m ∈ s.pendingStartIds ∨ m ∈ s.activeTextIds) →
      (∀ e ∈ l, e.isTextEndFor m = false) →
      (∀ e ∈ l, e.isRunFinishedEv = false) →
      (m ∈ (runEvents parse s l).1.pendingStartIds ∨
       m ∈ (runEvents parse s l).1.activeTextIds) := by
  induction l with
  | nil => intro s hs _ _; simpa [runEvents]
  | cons e rest ih =>
      intro s hs hend hrf
      rw [runEvents_cons]
      refine ih (step parse s e).1 ?_
        (fun e2 he2 => hend e2 (List.mem_cons_of_mem e he2))
        (fun e2 he2 => hrf e2 (List.mem_cons_of_mem e he2))
      refine step_union_keep parse s e m hs ?_ (hrf e (List.mem_cons_self e rest))
      intro hc
      have := hend e (List.mem_cons_self e rest)
      rw [hc] at this
      simp [Event.isTextEndFor] at this

/-- An active message stays active through events that are not its
TextMessageEnd and not RunFinished. -/
theorem runEvents_active_keep (parse : String → Option Value) (m : String)
    (l : List Event) :
    ∀ s : RunState, m ∈ s.activeTextIds →
      (∀ e ∈ l, e.isTextEndFor m = false) →
      (∀ e ∈ l, e.isRunFinishedEv = false) →
      m ∈ (runEvents parse s l).1.activeTextIds := by
  induction l with
  | nil => intro s hs _ _; simpa [runEvents]
  | cons e rest ih =>
      intro s hs hend hrf
      rw [runEvents_cons]
      refine ih (step parse s e).1 ?_
        (fun e2 he2 => hend e2 (List.mem_cons_of_mem e he2))
        (fun e2 he2 => hrf e2 (List.mem_cons_of_mem e he2))
      refine step_active_keep parse s e m hs ?_ (hrf e (List.mem_cons_self e rest))
      intro hc
      have := hend e (List.mem_cons_self e rest)
      rw [hc] at this
      simp [Event.isTextEndFor] at this

/-- A run over inputs containing no RunFinished emits no RunFinished. -/
theorem runEvents_no_runFinished (parse : String → Option Value) (l : List Event) :
    ∀ s : RunState, (∀ e ∈ l, e.isRunFinishedEv = false) →
      ∀ x ∈ (runEvents parse s l).2, x.isRunFinishedEv = false := by
  induction l with
  | nil => intro s _ x hx; simp [runEvents] at hx
  | cons e rest ih =>
      intro s hl x hx
      rw [runEvents_cons] at hx
      rcases List.mem_append.mp hx with hx | hx
      · cases hc : x.isRunFinishedEv
        · rfl
        · have := step_runFinished_source parse s e x hx hc
          rw [hl e (List.mem_cons_self e rest)] at this
          exact this.symm
      · exact ih (step parse s e).1
          (fun e2 he2 => hl e2 (List.mem_cons_of_mem e he2)) x hx

/-- Claim C5 (confirmed).  If message `m` receives a TextMessageStart and
later at least one TextMessageContent delta, with no TextMessageEnd for it
before the turn's RunFinished, and no dashboard-command trigger occurs
before the delta (which would suppress the message entirely), then the
output contains a synthetic TextMessageEnd for `m` emitted before the
RunFinished event. -/
theorem C5_forced_closure (parse : String → Option Value) (fs : Dict)
    (m d tid rid : String) (l1 l2 l3 : List Event)
    (hnoend : (l1 ++ l2 ++ l3).all (fun e => !e.isTextEndFor m) = true)
    (hnorf : (l1 ++ l2 ++ l3).all (fun e => !e.isRunFinishedEv) = true)
    (hnocmd : (l1 ++ l2).all (fun e => !triggersCommand parse e) = true) :
    ∃ o1 o2,
      (runEvents parse (initState fs)
        (l1 ++ (Event.textStart m :: (l2 ++ (Event.textContent m d ::
          (l3 ++ [Event.runFinished tid rid])))))).2
        = o1 ++ Event.textEnd m :: o2 ∧
      o1.all (fun x => !x.isRunFinishedEv) = true := by
  -- pointwise forms of the Boolean hypotheses
  have hEnd : ∀ e, e ∈ l1 ++ l2 ++ l3 → e.isTextEndFor m = false := by
    intro e he
    have := List.all_eq_true.mp hnoend e he
    rwa [Bool.not_eq_true'] at this
  have hRf : ∀ e, e ∈ l1 ++ l2 ++ l3 → e.isRunFinishedEv = false := by
    intro e he
    have := List.all_eq_true.mp hnorf e he
    rwa [Bool.not_eq_true'] at this
  have hCmd : ∀ e, e ∈ l1 ++ l2 → triggersCommand parse e = false := by
    intro e he
    have := List.all_eq_true.mp hnocmd e he
    rwa [Bool.not_eq_true'] at this
  have hin1 : ∀ e, e ∈ l1 → e ∈ l1 ++ l2 ++ l3 := by
    intro e he
    simp [he]
  have hin2 : ∀ e, e ∈ l2 → e ∈ l1 ++ l2 ++ l3 := by
    intro e he
    simp [he]
  have hin3 : ∀ e, e ∈ l3 → e ∈ l1 ++ l2 ++ l3 := by
    intro e he
    simp [he]
  -- abbreviations for the intermediate loop states
  set s0 := initState fs with hs0
  set s1 := (runEvents parse s0 l1).1 with hs1
  set s2 := (step parse s1 (Event.textStart m)).1 with hs2
  set s3 := (runEvents parse s2 l2).1 with hs3
  set s4 := (step parse s3 (Event.textContent m d)).1 with hs4
  set s5 := (runEvents parse s4 l3).1 with hs5
  -- the flag stays off until the content event
  have hf1 : s1.commandToolCalled = false := by
    rw [hs1]
    exact runEvents_flag_stays_false parse l1 s0 (by rw [hs0]; rfl)
      (fun e he => hCmd e (by simp [he]))
  have hf2 : s2.commandToolCalled = false := by
    rw [hs2, step_flag_stable parse s1 _ (by rfl)]
    exact hf1
  have hf3 : s3.commandToolCalled = false := by
    rw [hs3]
    exact runEvents_flag_stays_false parse l2 s2 hf2
      (fun e he => hCmd e (by simp [he]))
  -- the message is buffered by the Start and activated by the Content
  have hu2 : m ∈ s2.pendingStartIds ∨ m ∈ s2.activeTextIds := by
    rw [hs2]
    exact step_textStart_union parse s1 m hf1
  have hu3 : m ∈ s3.pendingStartIds ∨ m ∈ s3.activeTextIds := by
    rw [hs3]
    exact runEvents_union_keep parse m l2 s2 hu2
      (fun e he => hEnd e (hin2 e he)) (fun e he => hRf e (hin2 e he))
  have ha4 : m ∈ s4.activeTextIds := by
    rw [hs4]
    exact step_textContent_activates parse s3 m d hf3 hu3
  have ha5 : m ∈ s5.activeTextIds := by
    rw [hs5]
    exact runEvents_active_keep parse m l3 s4 ha4
      (fun e he => hEnd e (hin3 e he)) (fun e he => hRf e (hin3 e he))
  -- split the active list at m
  obtain ⟨a1, a2, hsplit⟩ := List.append_of_mem ha5
  -- normalize the run over the concatenated input
  simp only [runEvents_append, runEvents_cons, runEvents_nil, List.append_nil]
  rw [← hs1, ← hs2, ← hs3, ← hs4, ← hs5]
  rw [step_textStart_out parse s1 m,
    step_runFinished parse s5 tid rid, hsplit, List.map_append, List.map_cons]
  refine ⟨(runEvents parse s0 l1).2 ++ ((runEvents parse s2 l2).2 ++
      ((step parse s3 (Event.textContent m d)).2 ++ ((runEvents parse s4 l3).2 ++
        a1.map Event.textEnd))),
    a2.map Event.textEnd ++
      [Event.stateSnapshot (mergeLayers s5.lastInnerState s5.extractedState s5.frontendState),
       Event.runFinished tid rid], ?_, ?_⟩
  · simp [List.append_assoc]
  · -- nothing before the synthetic end is a RunFinished
    have hAll : ∀ l' : List Event, (∀ x ∈ l', x.isRunFinishedEv = false) →
        l'.all (fun x => !x.isRunFinishedEv) = true := by
      intro l' h
      rw [List.all_eq_true]
      intro x hx
      rw [Bool.not_eq_true']
      exact h x hx
    simp only [List.all_append, Bool.and_eq_true]
    refine ⟨?_, ?_, ?_, ?_, ?_⟩
    · exact hAll _ (runEvents_no_runFinished parse l1 s0
        (fun e he => hRf e (hin1 e he)))
    · exact hAll _ (runEvents_no_runFinished parse l2 s2
        (fun e he => hRf e (hin2 e he)))
    · refine hAll _ ?_
      intro x hx
      cases hc : x.isRunFinishedEv
      · rfl
      · have := step_runFinished_source parse s3 (Event.textContent m d) x hx hc
        simp [Event.isRunFinishedEv] at this
    · exact hAll _ (runEvents_no_runFinished parse l3 s4
        (fun e he => hRf e (hin3 e he)))
    · refine hAll _ ?_
      intro x hx
      rcases List.mem_map.mp hx with ⟨a, _, hax⟩
      rw [← hax]
      rfl

/-- Witness for C5 at the concrete input
[TextStart m, TextContent m "x", RunFinished]. -/
theorem C5_forced_closure_witness :
    ∃ o1 o2,
      (runEvents (fun _ => none) (initState [])
        ([] ++ (Event.textStart "m" :: ([] ++ (Event.textContent "m" "x" ::
          ([] ++ [Event.runFinished "T" "R"])))))).2
        = o1 ++ Event.textEnd "m" :: o2 ∧
      o1.all (fun x => !x.isRunFinishedEv) = true :=
  C5_forced_closure (fun _ => none) [] "m" "x" "T" "R" [] [] []
    (by decide) (by decide) (by decide)

/-! Claim C10: the output text-message events are well paired. -/

/-- Scanner for text-message pairing over an event stream: tracks the list
of currently open message ids.  Returns `none` on a violation (a second
Start without End, a Content or End outside an open message, or a
RunFinished while a message is still open); otherwise the open ids. -/
def scanText : List String → List Event → Option (List String)
  | opens, [] => some opens
  | opens, e :: rest =>
      match e with
      | .textStart m => if m ∈ opens then none else scanText (opens ++ [m]) rest
      | .textContent m _ => if m ∈ opens then scanText opens rest else none
      | .textEnd m => if m ∈ opens then scanText (removeFirst m opens) rest else none
      | .runFinished _ _ => if opens.isEmpty then scanText opens rest else none
      | _ => scanText opens rest

theorem scanText_append (opens : List String) (x y : List Event) :
    scanText opens (x ++ y) =
      match scanText opens x with
      | some b => scanText b y
      | none => none := by
  induction x generalizing opens with
  | nil => simp [scanText]
  | cons e x2 ih =>
      cases e with
      | textStart m =>
          by_cases hm : m ∈ opens
          · simp [scanText, hm]
          · simp [scanText, hm, ih]
      | textContent m d =>
          by_cases hm : m ∈ opens
          · simp [scanText, hm, ih]
          · simp [scanText, hm]
      | textEnd m =>
          by_cases hm : m ∈ opens
          · simp [scanText, hm, ih]
          · simp [scanText, hm]
      | runFinished t r =>
          by_cases hm : opens.isEmpty
          · simp [scanText, hm, ih]
          · simp [scanText, hm]
      | runStarted t r => simp [scanText, ih]
      | toolCallStart i n => simp [scanText, ih]
      | toolCallArgs i d => simp [scanText, ih]
      | toolCallEnd i => simp [scanText, ih]
      | toolCallResult i c => simp [scanText, ih]
      | stateSnapshot d => simp [scanText, ih]

theorem not_mem_removeFirst_self (m : String) (l : List String) (h : l.Nodup) :
    m ∉ removeFirst m l := by
  induction l with
  | nil => simp [removeFirst]
  | cons x rest ih =>
      simp only [List.nodup_cons] at h
      by_cases hx : x = m
      · rw [removeFirst, if_pos hx]
        rw [hx] at h
        exact h.1
      · rw [removeFirst, if_neg hx]
        simp only [List.mem_cons]
        intro hc
        rcases hc with hc | hc
        · exact hx hc.symm
        · exact ih h.2 hc

/-- Closing every open message in order drains the scanner. -/
theorem scanText_close (A : List String) (rest : List Event) :
    scanText A (A.map Event.textEnd ++ rest) = scanText [] rest := by
  induction A with
  | nil => simp
  | cons a A2 ih =>
      simp only [List.map_cons, List.cons_append, scanText, removeFirst_cons_self]
      simpa using ih

/-- The pairing invariant carried by the loop state. -/
def textInvariant (s : RunState) : Prop :=
  s.pendingStartIds.Nodup ∧ s.activeTextIds.Nodup ∧
    ∀ m, m ∈ s.pendingStartIds → m ∉ s.activeTextIds

/-- Each step preserves the pairing invariant, and its output moves the
scanner from the old active set to the new active set without violation. -/
theorem step_scanText (parse : String → Option Value) (s : RunState) (e : Event)
    (hinv : textInvariant s) :
    scanText s.activeTextIds (step parse s e).2 =
      some ((step parse s e).1.activeTextIds) ∧
    textInvariant (step parse s e).1 := by
  obtain ⟨hnp, hna, hdisj⟩ := hinv
  rcases step_branches parse s e with
      ⟨snap, he, heq⟩ | ⟨t, r, he, heq⟩ | ⟨t, r, he, heq⟩ | heq |
      ⟨i, n, he, hn, heq⟩ | ⟨i, d, buf, he, hi, hc, heq⟩ |
      ⟨i, ex, tail, he, hi, hc, heq, htail⟩ |
      ⟨i, c, ex, flag, tail, he, hi, heq, htail, hmono, hstable⟩ |
      ⟨m, he, hf, hp, ha, heq⟩ | ⟨m, d, he, hf, hp, heq⟩ |
      ⟨m, d, he, hf, hp, ha, heq⟩ | ⟨m, he, hp, heq⟩ | ⟨m, he, hp, ha, heq⟩ <;>
    (try subst he) <;> rw [heq]
  · exact ⟨by simp [scanText], hnp, hna, hdisj⟩
  · exact ⟨by simp [scanText], hnp, hna, hdisj⟩
  · -- runFinished: close all active messages, then snapshot and the event
    refine ⟨?_, by simp [textInvariant]⟩
    show scanText s.activeTextIds
        (s.activeTextIds.map Event.textEnd ++
          [Event.stateSnapshot (mergeLayers s.lastInnerState s.extractedState s.frontendState),
           Event.runFinished t r]) = some []
    rw [scanText_close]
    simp [scanText]
  · exact ⟨by simp [scanText], hnp, hna, hdisj⟩
  · exact ⟨by simp [scanText], hnp, hna, hdisj⟩
  · exact ⟨by simp [scanText], hnp, hna, hdisj⟩
  · -- accepted ToolCallEnd: output is the event plus possibly a snapshot
    refine ⟨?_, hnp, hna, hdisj⟩
    rcases htail with ht | ⟨d2, ht⟩ <;> rw [ht] <;> simp [scanText]
  · -- known ToolCallResult
    refine ⟨?_, hnp, hna, hdisj⟩
    rcases htail with ht | ⟨d2, ht⟩ <;> rw [ht] <;> simp [scanText]
  · -- buffered TextMessageStart: no output, pending grows
    refine ⟨by simp [scanText], ?_, hna, ?_⟩
    · show (s.pendingStartIds ++ [m]).Nodup
      simp only [List.nodup_append, List.nodup_cons, List.nodup_nil]
      exact ⟨hnp, by simp, by simp [hp]⟩
    · show ∀ m2, m2 ∈ s.pendingStartIds ++ [m] → m2 ∉ s.activeTextIds
      intro m2 hm2
      rcases List.mem_append.mp hm2 with hm2 | hm2
      · exact hdisj m2 hm2
      · simp only [List.mem_singleton] at hm2
        rw [hm2]
        exact ha
  · -- pending TextMessageContent: emit the buffered Start then the Content
    have hma : m ∉ s.activeTextIds := hdisj m hp
    refine ⟨?_, ?_, ?_, ?_⟩
    · show scanText s.activeTextIds
        [Event.textStart m, Event.textContent m d] = some (s.activeTextIds ++ [m])
      simp [scanText, hma]
    · show (removeFirst m s.pendingStartIds).Nodup
      exact nodup_removeFirst m s.pendingStartIds hnp
    · show (s.activeTextIds ++ [m]).Nodup
      simp only [List.nodup_append, List.nodup_cons, List.nodup_nil]
      exact ⟨hna, by simp, by simp [hma]⟩
    · show ∀ m2, m2 ∈ removeFirst m s.pendingStartIds → m2 ∉ s.activeTextIds ++ [m]
      intro m2 hm2
      have hm2p : m2 ∈ s.pendingStartIds := mem_removeFirst_imp m m2 _ hm2
      have hm2ne : m2 ≠ m := by
        intro hc
        rw [hc] at hm2
        exact not_mem_removeFirst_self m s.pendingStartIds hnp hm2
      simp only [List.mem_append, List.mem_singleton]
      intro hc
      rcases hc with hc | hc
      · exact hdisj m2 hm2p hc
      · exact hm2ne hc
  · -- active TextMessageContent: pass through
    exact ⟨by simp [scanText, ha], hnp, hna, hdisj⟩
  · -- pending TextMessageEnd: drop the phantom
    refine ⟨by simp [scanText], nodup_removeFirst m s.pendingStartIds hnp, hna, ?_⟩
    show ∀ m2, m2 ∈ removeFirst m s.pendingStartIds → m2 ∉ s.activeTextIds
    intro m2 hm2
    exact hdisj m2 (mem_removeFirst_imp m m2 _ hm2)
  · -- active TextMessageEnd: close the message
    refine ⟨by simp [scanText, ha], hnp, nodup_removeFirst m s.activeTextIds hna, ?_⟩
    show ∀ m2, m2 ∈ s.pendingStartIds → m2 ∉ removeFirst m s.activeTextIds
    intro m2 hm2
    intro hc
    exact hdisj m2 hm2 (mem_removeFirst_imp m m2 _ hc)

/-- Run-level pairing: the scanner tracks the active set over a whole run. -/
theorem runEvents_scanText (parse : String → Option Value) (l : List Event) :
    ∀ s : RunState, textInvariant s →
      scanText s.activeTextIds (runEvents parse s l).2 =
        some ((runEvents parse s l).1.activeTextIds) ∧
      textInvariant (runEvents parse s l).1 := by
  induction l with
  | nil => intro s hinv; exact ⟨by simp [runEvents, scanText], hinv⟩
  | cons e rest ih =>
      intro s hinv
      obtain ⟨h1, h2⟩ := step_scanText parse s e hinv
      obtain ⟨ih1, ih2⟩ := ih (step parse s e).1 h2
      rw [runEvents_cons]
      refine ⟨?_, ih2⟩
      rw [scanText_append, h1]
      exact ih1

/-- Claim C10 (confirmed).  For every input sequence of one turn ending in
RunFinished, the output text-message events are well paired: scanning the
output, every TextMessageStart opens a message not already open, every
TextMessageContent and TextMessageEnd falls inside an open message, each
open message is closed exactly once before the RunFinished is emitted, and
no message remains open at the end. -/
theorem C10_text_pairing (parse : String → Option Value) (fs : Dict)
    (l : List Event) (tid rid : String) :
    scanText []
      (runEvents parse (initState fs) (l ++ [.runFinished tid rid])).2 = some [] := by
  have hinv : textInvariant (initState fs) := by
    refine ⟨by simp [initState], by simp [initState], ?_⟩
    intro m hm
    simp [initState] at hm
  obtain ⟨h1, _⟩ :=
    runEvents_scanText parse (l ++ [.runFinished tid rid]) (initState fs) hinv
  have hfin : (runEvents parse (initState fs) (l ++ [.runFinished tid rid])).1.activeTextIds
      = [] := by
    rw [runEvents_append, runEvents_cons]
    simp only [runEvents_nil]
    rw [step_runFinished]
  rw [hfin] at h1
  have hini : (initState fs).activeTextIds = [] := rfl
  rw [hini] at h1
  exact h1

/-- Sample run for C10: an interleaved stream with a phantom, a duplicate
start, an orphan end and an unclosed message still scans cleanly. -/
theorem C10_text_pairing_witness :
    scanText []
      (runEvents (fun _ => none) (initState [])
        ([.textStart "a", .textStart "a", .textContent "a" "x", .textEnd "zz",
          .textStart "b", .textEnd "b", .textStart "c", .textContent "c" "y"]
         ++ [.runFinished "T" "R"])).2 = some [] :=
  C10_text_pairing (fun _ => none) []
    [.textStart "a", .textStart "a", .textContent "a" "x", .textEnd "zz",
     .textStart "b", .textEnd "b", .textStart "c", .textContent "c" "y"] "T" "R"

/-! Claim C7: fresh-start history pruning. -/

/-- Survivor predicate of the amended claim C7: tool messages and
assistant messages carrying tool-call or tool-result content are removed;
user messages, pure-text assistant messages, and messages of other roles
(for example system messages) survive. -/
def survivesFreshStart (m : ChatMessage) : Bool :=
  match m.role with
  | .user => true
  | .tool => false
  | .assistant => !hasToolRelated m
  | .system => true

/-- Counterexample to claim C7 as stated: a system message passes the
fresh-start filter untouched, so it is not true that only plain user
messages and pure-text assistant messages survive. -/
theorem C7_counterexample :
    filterFreshStart [⟨Role.system, [MsgContent.text "sys"]⟩] =
      [⟨Role.system, [MsgContent.text "sys"]⟩] ∧
    Role.system ≠ Role.user ∧ Role.system ≠ Role.assistant :=
  ⟨rfl, by decide, by decide⟩

/-- Amended claim C7 (proved).  Shaping a history for a fresh start keeps
exactly the messages satisfying `survivesFreshStart` (in order): every
tool-result message and every assistant message carrying a
tool-call-invocation or tool-call-result content item is removed, while
user messages, pure-text assistant messages and other-role (system)
messages survive.  In particular [user, assistant+toolcall, tool-result,
user] is shaped to [user(1st), user(2nd)]. -/
theorem C7_fresh_start_pruning :
    (∀ msgs : List ChatMessage,
      filterFreshStart msgs = msgs.filter survivesFreshStart) ∧
    filterFreshStart
      [⟨.user, [.text "u1"]⟩,
       ⟨.assistant, [.text "calling", .functionCall "c1" "fetch_flights"]⟩,
       ⟨.tool, [.functionResult "c1"]⟩,
       ⟨.user, [.text "u2"]⟩] =
      [⟨.user, [.text "u1"]⟩, ⟨.user, [.text "u2"]⟩] := by
  constructor
  · intro msgs
    induction msgs with
    | nil => rfl
    | cons m rest ih =>
        cases hr : m.role with
        | user => simp [filterFreshStart, hr, List.filter_cons, survivesFreshStart, ih]
        | tool => simp [filterFreshStart, hr, List.filter_cons, survivesFreshStart, ih]
        | system => simp [filterFreshStart, hr, List.filter_cons, survivesFreshStart, ih]
        | assistant =>
            cases hb : hasToolRelated m <;>
              simp [filterFreshStart, hr, List.filter_cons, survivesFreshStart, hb, ih]
  · rfl

/-- Witness for the amended C7: the filter characterization evaluated at
the concrete mixed history. -/
theorem C7_fresh_start_pruning_witness :
    filterFreshStart
      [⟨.system, [.text "sys"]⟩, ⟨.tool, [.functionResult "c0"]⟩,
       ⟨.assistant, [.functionCall "c0" "analyze_flights"]⟩,
       ⟨.assistant, [.text "hello"]⟩] =
      List.filter survivesFreshStart
        [⟨.system, [.text "sys"]⟩, ⟨.tool, [.functionResult "c0"]⟩,
         ⟨.assistant, [.functionCall "c0" "analyze_flights"]⟩,
         ⟨.assistant, [.text "hello"]⟩] :=
  C7_fresh_start_pruning.1
    [⟨.system, [.text "sys"]⟩, ⟨.tool, [.functionResult "c0"]⟩,
     ⟨.assistant, [.functionCall "c0" "analyze_flights"]⟩,
     ⟨.assistant, [.text "hello"]⟩]

/-! Claim C8: continuation history trimming. -/

theorem lastInputIdx_none (msgs : List ChatMessage)
    (h : lastInputIdx msgs = none) : ∀ m ∈ msgs, isNewInput m = false := by
  induction msgs with
  | nil => intro m hm; simp at hm
  | cons m2 rest ih =>
      intro m hm
      simp only [lastInputIdx] at h
      cases hrest : lastInputIdx rest with
      | some i => rw [hrest] at h; simp at h
      | none =>
          rw [hrest] at h
          by_cases hni : isNewInput m2 = true
          · rw [if_pos hni] at h; simp at h
          · rcases List.mem_cons.mp hm with hm | hm
            · rw [hm]
              exact Bool.not_eq_true _ ▸ eq_false_of_ne_true hni
            · exact ih hrest m hm

theorem lastInputIdx_spec (msgs : List ChatMessage) :
    ∀ i, lastInputIdx msgs = some i →
      ∃ h : i < msgs.length,
        isNewInput (msgs.get ⟨i, h⟩) = true ∧
        ∀ j, ∀ hj : j < msgs.length, i < j →
          isNewInput (msgs.get ⟨j, hj⟩) = false := by
  induction msgs with
  | nil => intro i h; simp [lastInputIdx] at h
  | cons m rest ih =>
      intro i h
      simp only [lastInputIdx] at h
      cases hrest : lastInputIdx rest with
      | some i2 =>
          rw [hrest] at h
          simp only [Option.some.injEq] at h
          obtain ⟨h2, hget, hafter⟩ := ih i2 hrest
          subst h
          refine ⟨by simpa using Nat.succ_lt_succ h2, by simpa using hget, ?_⟩
          intro j hj hgt
          cases j with
          | zero => simp at hgt
          | succ j2 =>
              have hj2 : j2 < rest.length := by simpa using hj
              have : i2 < j2 := Nat.lt_of_succ_lt_succ hgt
              simpa using hafter j2 hj2 this
      | none =>
          rw [hrest] at h
          by_cases hni : isNewInput m = true
          · rw [if_pos hni] at h
            simp only [Option.some.injEq] at h
            subst h
            refine ⟨by simp, by simpa using hni, ?_⟩
            intro j hj hgt
            cases j with
            | zero => simp at hgt
            | succ j2 =>
                have hj2 : j2 < rest.length := by simpa using hj
                have hmem : rest.get ⟨j2, hj2⟩ ∈ rest := List.get_mem rest _ _
                simpa using lastInputIdx_none rest hrest _ hmem
          · rw [if_neg hni] at h
            simp at h

/-- Claim C8 (confirmed).  When continuing a conversation, the history is
trimmed to the suffix beginning at the last message whose role is user or
tool: everything before the most recent "new input" message is stripped
and nothing before it is sent upstream.  In particular
[user, assistant, user, assistant+toolcall, tool-result] is shaped to
[tool-result] only. -/
theorem C8_continuation_trimming :
    (∀ msgs : List ChatMessage, ∀ mm ∈ msgs, isNewInput mm = true →
      ∃ i, ∃ h : i < msgs.length,
        filterMessagesForApi msgs = msgs.drop i ∧
        isNewInput (msgs.get ⟨i, h⟩) = true ∧
        ∀ j, ∀ hj : j < msgs.length, i < j →
          isNewInput (msgs.get ⟨j, hj⟩) = false) ∧
    filterMessagesForApi
      [⟨.user, [.text "u1"]⟩, ⟨.assistant, [.text "a1"]⟩, ⟨.user, [.text "u2"]⟩,
       ⟨.assistant, [.text "a2", .functionCall "c9" "fetch_flights"]⟩,
       ⟨.tool, [.functionResult "c9"]⟩] =
      [⟨.tool, [.functionResult "c9"]⟩] := by
  constructor
  · intro msgs mm hmm hni
    cases hidx : lastInputIdx msgs with
    | none =>
        have := lastInputIdx_none msgs hidx mm hmm
        rw [hni] at this
        simp at this
    | some i =>
        obtain ⟨h, hget, hafter⟩ := lastInputIdx_spec msgs i hidx
        exact ⟨i, h, by simp [filterMessagesForApi, hidx], hget, hafter⟩
  · rfl

/-- Witness for C8 at the concrete five-message history. -/
theorem C8_continuation_trimming_witness :
    ∃ i, ∃ h : i < ([⟨.user, [.text "u1"]⟩, ⟨.assistant, [.text "a1"]⟩,
        ⟨.user, [.text "u2"]⟩,
        ⟨.assistant, [.text "a2", .functionCall "c9" "fetch_flights"]⟩,
        ⟨.tool, [.functionResult "c9"]⟩] : List ChatMessage).length,
      filterMessagesForApi
        [⟨.user, [.text "u1"]⟩, ⟨.assistant, [.text "a1"]⟩, ⟨.user, [.text "u2"]⟩,
         ⟨.assistant, [.text "a2", .functionCall "c9" "fetch_flights"]⟩,
         ⟨.tool, [.functionResult "c9"]⟩] =
        ([⟨.user, [.text "u1"]⟩, ⟨.assistant, [.text "a1"]⟩, ⟨.user, [.text "u2"]⟩,
          ⟨.assistant, [.text "a2", .functionCall "c9" "fetch_flights"]⟩,
          ⟨.tool, [.functionResult "c9"]⟩] : List ChatMessage).drop i ∧
      isNewInput (([⟨.user, [.text "u1"]⟩, ⟨.assistant, [.text "a1"]⟩,
          ⟨.user, [.text "u2"]⟩,
          ⟨.assistant, [.text "a2", .functionCall "c9" "fetch_flights"]⟩,
          ⟨.tool, [.functionResult "c9"]⟩] : List ChatMessage).get ⟨i, h⟩) = true ∧
      ∀ j, ∀ hj : j < ([⟨.user, [.text "u1"]⟩, ⟨.assistant, [.text "a1"]⟩,
          ⟨.user, [.text "u2"]⟩,
          ⟨.assistant, [.text "a2", .functionCall "c9" "fetch_flights"]⟩,
          ⟨.tool, [.functionResult "c9"]⟩] : List ChatMessage).length, i < j →
        isNewInput (([⟨.user, [.text "u1"]⟩, ⟨.assistant, [.text "a1"]⟩,
            ⟨.user, [.text "u2"]⟩,
            ⟨.assistant, [.text "a2", .functionCall "c9" "fetch_flights"]⟩,
            ⟨.tool, [.functionResult "c9"]⟩] : List ChatMessage).get ⟨j, hj⟩) = false :=
  C8_continuation_trimming.1
    [⟨.user, [.text "u1"]⟩, ⟨.assistant, [.text "a1"]⟩, ⟨.user, [.text "u2"]⟩,
     ⟨.assistant, [.text "a2", .functionCall "c9" "fetch_flights"]⟩,
     ⟨.tool, [.functionResult "c9"]⟩]
    ⟨.tool, [.functionResult "c9"]⟩ (by simp) (by decide)

/-! Claim C9: frontend-tool-result turns short-circuit the backend. -/

/-- Claim C9 (confirmed).  When the turn's last message is a tool result
for a frontend-only tool, the backend is never invoked (the output is the
same for every backend function) and the output stream is exactly a
synthetic RunStarted, then — only if the client-declared state is
non-empty — one StateSnapshot holding exactly that state, then
RunFinished; and the stored continuation token of the thread is cleared. -/
theorem C9_frontend_short_circuit (parse : String → Option Value)
    (store : List (String × String)) (inp : TurnInput)
    (backend : List ChatMessage → List Event)
    (hfr : isFrontendToolResultOnly inp.messages = true)
    (htid : inp.threadId ≠ "") :
    (runTurn parse store inp backend).2 =
      [.runStarted inp.threadId frontendActionRunId]
        ++ (if inp.state.isEmpty then [] else [.stateSnapshot inp.state])
        ++ [.runFinished inp.threadId frontendActionRunId] ∧
    lookupKey inp.threadId (runTurn parse store inp backend).1 = none := by
  constructor
  · simp [runTurn, hfr]
  · simp only [runTurn, hfr, if_pos]
    by_cases hmem : hasKey inp.threadId store
    · rw [if_pos ⟨htid, hmem⟩]
      exact lookupKey_eraseKeyStore inp.threadId store
    · rw [if_neg (fun hc => hmem hc.2)]
      rw [hasKey] at hmem
      exact Option.not_isSome_iff_eq_none.mp (by simpa using hmem)

/-- Witness for C9: a concrete filter_dashboard result turn. -/
theorem C9_frontend_short_circuit_witness :
    (runTurn (fun _ => none) [("TID", "resp_1")]
        ⟨"TID", [⟨.assistant, [.functionCall "c1" "filter_dashboard"]⟩,
                 ⟨.tool, [.functionResult "c1"]⟩], [("x", .num 5)]⟩
        (fun _ => [.textStart "zz"])).2 =
      [.runStarted "TID" frontendActionRunId]
        ++ (if ([("x", Value.num 5)] : Dict).isEmpty then []
            else [.stateSnapshot [("x", Value.num 5)]])
        ++ [.runFinished "TID" frontendActionRunId] ∧
    lookupKey "TID"
      (runTurn (fun _ => none) [("TID", "resp_1")]
        ⟨"TID", [⟨.assistant, [.functionCall "c1" "filter_dashboard"]⟩,
                 ⟨.tool, [.functionResult "c1"]⟩], [("x", .num 5)]⟩
        (fun _ => [.textStart "zz"])).1 = none :=
  C9_frontend_short_circuit (fun _ => none) [("TID", "resp_1")]
    ⟨"TID", [⟨.assistant, [.functionCall "c1" "filter_dashboard"]⟩,
             ⟨.tool, [.functionResult "c1"]⟩], [("x", .num 5)]⟩
    (fun _ => [.textStart "zz"]) (by decide) (by decide)

/-! Claim C2: the three-layer state merge. -/

/-- Per-key merge rule exactly as claim C2 states it (transcribed from the
spec's words, for comparison with the code's `mergeLayers`): a key's
merged value is the highest-priority layer's value among the layers whose
value for it is non-empty (frontend over toolResult over agent); if no
layer has a non-empty value, the lowest-priority declaring layer's value
is kept. -/
def specMergedValue (agent toolRes frontend : Dict) (k : String) : Option Value :=
  let nonEmptyAt : Dict → Option Value := fun d =>
    match lookupKey k d with
    | some v => if v.isEmptyVal then none else some v
    | none => none
  match nonEmptyAt frontend with
  | some v => some v
  | none =>
      match nonEmptyAt toolRes with
      | some v => some v
      | none =>
          match nonEmptyAt agent with
          | some v => some v
          | none =>
              match lookupKey k agent with
              | some v => some v
              | none =>
                  match lookupKey k toolRes with
                  | some v => some v
                  | none => lookupKey k frontend

/-- Counterexample to claim C2 as stated: with agent = \x7ba: [1]\x7d,
toolResult = \x7ba: []\x7d, frontend = \x7b\x7d the claim's per-key rule
keeps the agent's non-empty [1], but the code's merge (a plain
priority-ordered dict update) lets the tool-result layer's empty list
overwrite it. -/
theorem C2_counterexample :
    specMergedValue [("a", .arr [.num 1])] [("a", .arr [])] [] "a" =
      some (.arr [.num 1]) ∧
    lookupKey "a" (mergeLayers [("a", .arr [.num 1])] [("a", .arr [])] []) =
      some (.arr []) ∧
    lookupKey "a" (mergeLayers [("a", .arr [.num 1])] [("a", .arr [])] []) ≠
      specMergedValue [("a", .arr [.num 1])] [("a", .arr [])] [] "a" := by
  have h1 : specMergedValue [("a", .arr [.num 1])] [("a", .arr [])] [] "a" =
      some (.arr [.num 1]) := rfl
  have h2 : lookupKey "a" (mergeLayers [("a", .arr [.num 1])] [("a", .arr [])] []) =
      some (.arr []) := rfl
  refine ⟨h1, h2, ?_⟩
  rw [h1, h2]
  intro h
  simp at h

/-- Amended claim C2 (proved).  The merged snapshot is a plain
priority-ordered dict update: a key's merged value is the value of the
highest-priority layer that declares the key at all (frontend over
tool-result over agent), regardless of emptiness.  The spec's two concrete
examples hold: merging agent=\x7ba:1,b:[]\x7d, toolResult=\x7bb:[1,2]\x7d,
frontend=\x7b\x7d yields \x7ba:1,b:[1,2]\x7d, and with frontend=\x7ba:9\x7d
yields \x7ba:9,b:[1,2]\x7d.  (The skip-empty rule of the claim applies only
to accumulating successive inner snapshots into the agent layer,
`updateInner`, not to the three-layer merge.) -/
theorem C2_state_layer_merge :
    (∀ (a e f : Dict) (k : String), keysNodup e → keysNodup f →
      lookupKey k (mergeLayers a e f) =
        match lookupKey k f with
        | some v => some v
        | none =>
            match lookupKey k e with
            | some v => some v
            | none => lookupKey k a) ∧
    mergeLayers [("a", .num 1), ("b", .arr [])] [("b", .arr [.num 1, .num 2])] [] =
      [("a", .num 1), ("b", .arr [.num 1, .num 2])] ∧
    mergeLayers [("a", .num 1), ("b", .arr [])] [("b", .arr [.num 1, .num 2])]
        [("a", .num 9)] =
      [("a", .num 9), ("b", .arr [.num 1, .num 2])] := by
  refine ⟨?_, rfl, rfl⟩
  intro a e f k he hf
  rw [mergeLayers, lookupKey_dictMerge, lastVal_eq_lookupKey k f hf,
    lookupKey_dictMerge, lastVal_eq_lookupKey k e he]
  cases lookupKey k f <;> cases lookupKey k e <;> rfl

/-- Witness for the amended C2 at the spec's first example. -/
theorem C2_state_layer_merge_witness :
    lookupKey "b" (mergeLayers [("a", .num 1), ("b", .arr [])]
        [("b", .arr [.num 1, .num 2])] []) =
      match lookupKey "b" ([] : Dict) with
      | some v => some v
      | none =>
          match lookupKey "b" [("b", Value.arr [Value.num 1, Value.num 2])] with
          | some v => some v
          | none => lookupKey "b" [("a", Value.num 1), ("b", Value.arr [])] :=
  C2_state_layer_merge.1 [("a", .num 1), ("b", .arr [])]
    [("b", .arr [.num 1, .num 2])] [] "b" (by simp [keysNodup]) (by simp [keysNodup])

/-! Claim C3: the "keep existing" sentinel. -/

/-- The sentinel cleanup never produces the sentinel itself. -/
theorem cleanKeepEntry_ne_sentinel (v : Value) :
    cleanKeepEntry v ≠ .str "__KEEP__" := by
  cases v with
  | str s =>
      by_cases hs : s = "__KEEP__"
      · simp [cleanKeepEntry, hs]
      · simp [cleanKeepEntry, hs]
  | null => simp [cleanKeepEntry]
  | boolean b => simp [cleanKeepEntry]
  | num n => simp [cleanKeepEntry]
  | arr xs => simp [cleanKeepEntry]
  | obj kvs => simp [cleanKeepEntry]

theorem lastVal_eq_none_of_lookup_none (k : String) (d : List (String × α))
    (h : lookupKey k d = none) : lastVal k d = none := by
  induction d with
  | nil => rfl
  | cons p rest ih =>
      simp only [lookupKey] at h
      by_cases hp : p.1 = k
      · rw [if_pos hp] at h; simp at h
      · rw [if_neg hp] at h
        simp only [lastVal, ih h, if_neg hp]

theorem keysNodup_extractFromResult (ex : Dict) (kvs : List (String × Value))
    (h : keysNodup ex) : keysNodup (extractFromResult ex kvs) := by
  have hopt : ∀ (d : Dict) (o : Option Value) (key : String), keysNodup d →
      keysNodup (match o with | some v => setKey key v d | none => d) := by
    intro d o key hd
    cases o with
    | some v => exact keysNodup_setKey key v d hd
    | none => exact hd
  rw [extractFromResult]
  exact hopt _ _ _ (hopt _ _ _ (hopt _ _ _ h))

/-- Counterexample to claim C3 as stated: a fetch_flights result carrying
the sentinel \x7broutFrom: "__KEEP__"\x7d does not leave the snapshot's
`activeFilter` untouched — the previously buffered agent value
\x7broutFrom: "LAX"\x7d is overwritten by the cleaned filter
\x7broutFrom: null\x7d in every emitted snapshot of the turn. -/
theorem C3_counterexample :
    (runEvents (fun _ => none) (initState [])
      [.stateSnapshot [("activeFilter", .obj [("routeFrom", .str "LAX")])],
       .toolCallStart "t1" "fetch_flights",
       .toolCallResult "t1" (.obj [("activeFilter", .obj [("routeFrom", .str "__KEEP__")])]),
       .runFinished "T" "R"]).2 =
      [.toolCallStart "t1" "fetch_flights",
       .toolCallResult "t1" (.obj [("activeFilter", .obj [("routeFrom", .str "__KEEP__")])]),
       .stateSnapshot [("activeFilter", .obj [("routeFrom", .null)])],
       .stateSnapshot [("activeFilter", .obj [("routeFrom", .null)])],
       .runFinished "T" "R"] ∧
    Value.obj [("routeFrom", Value.null)] ≠ Value.obj [("routeFrom", Value.str "LAX")] := by
  refine ⟨rfl, ?_⟩
  intro h
  simp at h

/-- Amended claim C3 (proved).  A tool result whose `activeFilter` field
contains sentinel-valued entries has each sentinel rewritten to null
before entering the tool-result layer; the emitted merged snapshot's
`activeFilter` key holds exactly the cleaned filter (so the sentinel
string never appears inside it), but the key is overwritten with the
cleaned filter — with null standing for "no value" — rather than left
untouched. -/
theorem C3_sentinel_cleanup (parse : String → Option Value) (s : RunState)
    (id : String) (kvs rkvs : List (String × Value))
    (hseen : id ∈ s.seen)
    (hak : lookupKey "activeFilter" kvs = some (.obj rkvs))
    (hex : keysNodup s.extractedState)
    (hfr : lookupKey "activeFilter" s.frontendState = none) :
    step parse s (.toolCallResult id (.obj kvs)) =
      ({ s with
          extractedState :=
            setKey "activeFilter" (.obj (cleanKeepList rkvs))
              (extractFromResult s.extractedState kvs),
          commandToolCalled := true },
       [.toolCallResult id (.obj kvs),
        .stateSnapshot (mergeLayers s.lastInnerState
          (setKey "activeFilter" (.obj (cleanKeepList rkvs))
            (extractFromResult s.extractedState kvs)) s.frontendState)]) ∧
    lookupKey "activeFilter" (mergeLayers s.lastInnerState
        (setKey "activeFilter" (.obj (cleanKeepList rkvs))
          (extractFromResult s.extractedState kvs)) s.frontendState) =
      some (.obj (cleanKeepList rkvs)) ∧
    (∀ p ∈ cleanKeepList rkvs, p.2 ≠ Value.str "__KEEP__") := by
  refine ⟨?_, ?_, ?_⟩
  · simp only [step, if_neg (not_not_intro hseen), parsedResult, hak, cleanActiveFilter]
  · have hnodup : keysNodup (setKey "activeFilter" (Value.obj (cleanKeepList rkvs))
        (extractFromResult s.extractedState kvs)) :=
      keysNodup_setKey _ _ _ (keysNodup_extractFromResult s.extractedState kvs hex)
    rw [mergeLayers, lookupKey_dictMerge,
      lastVal_eq_none_of_lookup_none "activeFilter" s.frontendState hfr,
      lookupKey_dictMerge, lastVal_eq_lookupKey _ _ hnodup, lookupKey_setKey]
    simp
  · intro p hp
    rcases List.mem_map.mp hp with ⟨q, _, hq⟩
    rw [← hq]
    exact cleanKeepEntry_ne_sentinel q.2

/-- Witness for the amended C3 at a concrete sentinel-bearing result. -/
theorem C3_sentinel_cleanup_witness :
    step (fun _ => none)
        ⟨["t1"], [], [], false, [], [], [], [], [], []⟩
        (.toolCallResult "t1" (.obj [("activeFilter",
          .obj [("routeFrom", .str "__KEEP__"), ("routeTo", .str "ORD")])])) =
      ({ (⟨["t1"], [], [], false, [], [], [], [], [], []⟩ : RunState) with
          extractedState :=
            setKey "activeFilter"
              (.obj (cleanKeepList [("routeFrom", .str "__KEEP__"), ("routeTo", .str "ORD")]))
              (extractFromResult [] [("activeFilter",
                .obj [("routeFrom", .str "__KEEP__"), ("routeTo", .str "ORD")])]),
          commandToolCalled := true },
       [.toolCallResult "t1" (.obj [("activeFilter",
          .obj [("routeFrom", .str "__KEEP__"), ("routeTo", .str "ORD")])]),
        .stateSnapshot (mergeLayers []
          (setKey "activeFilter"
            (.obj (cleanKeepList [("routeFrom", .str "__KEEP__"), ("routeTo", .str "ORD")]))
            (extractFromResult [] [("activeFilter",
              .obj [("routeFrom", .str "__KEEP__"), ("routeTo", .str "ORD")])])) [])]) ∧
    lookupKey "activeFilter" (mergeLayers []
        (setKey "activeFilter"
          (.obj (cleanKeepList [("routeFrom", .str "__KEEP__"), ("routeTo", .str "ORD")]))
          (extractFromResult [] [("activeFilter",
            .obj [("routeFrom", .str "__KEEP__"), ("routeTo", .str "ORD")])])) []) =
      some (.obj (cleanKeepList [("routeFrom", .str "__KEEP__"), ("routeTo", .str "ORD")])) ∧
    (∀ p ∈ cleanKeepList [("routeFrom", .str "__KEEP__"), ("routeTo", .str "ORD")],
      p.2 ≠ Value.str "__KEEP__") :=
  C3_sentinel_cleanup (fun _ => none)
    ⟨["t1"], [], [], false, [], [], [], [], [], []⟩
    "t1" [("activeFilter", .obj [("routeFrom", .str "__KEEP__"), ("routeTo", .str "ORD")])]
    [("routeFrom", .str "__KEEP__"), ("routeTo", .str "ORD")]
    (by simp) rfl (by simp [keysNodup]) rfl

end DataAgent
